import Mathlib

/-!
Verification development for the `rust-sourcebundler` crate
(`src/lib.rs`): a shallow embedding of the bundler that inlines a
multi-file Rust crate into a single source file, together with theorems
about its behaviour.

Modelling conventions:
* Files are lists of raw lines (without the trailing newline); the
  filesystem is a partial map from path strings to file contents.
* The regexes of the source are modelled as executable functions over
  `List Char`.  `\s` (and Rust's `trim_end`) is modelled as ASCII
  whitespace (space, tab, CR, LF); the configured crate name is treated
  as literal text inside the two crate regexes, as it is for ordinary
  identifier crate names.
* `io::Error` returns, the `expect`/`assert!`/`panic!` aborts and fuel
  exhaustion of the recursion are all modelled by `Except BErr`.
* Each written output line carries ghost provenance data (`Origin`:
  which file produced it, and `OutKind`: opening delimiter, closing
  delimiter, rewritten `use` line, or ordinary `write_line` text).  The
  text actually written to the bundle is the `content` field; the tags
  exist only so that theorems can speak about where a line came from.
-/

/-- ASCII model of the regex class `\s` and of `str::trim_end`. -/
def isWs (c : Char) : Bool :=
  c == ' ' || c == '\t' || c == '\r' || c == '\n'

/-- Drop a maximal run of leading whitespace (the `^\s*` of the regexes). -/
def dropWs : List Char → List Char
  | [] => []
  | c :: cs => if isWs c then dropWs cs else c :: cs

/-- Strip an expected literal first argument off the front of the second;
`some rest` on success. -/
def stripPre : List Char → List Char → Option (List Char)
  | [], l => some l
  | _ :: _, [] => none
  | p :: ps, c :: cs => if p = c then stripPre ps cs else none

/-- Require the last character to be `';'` and return what precedes it
(the greedy capture of `(.*);$` / `(.+);$`). -/
def endSemi (l : List Char) : Option (List Char) :=
  match l.reverse with
  | ';' :: r => some r.reverse
  | _ => none

/-- `str::trim_end` on one line. -/
def trimR (s : String) : String :=
  String.mk (dropWs s.data.reverse).reverse

/-- `comment_re = ^\s*//` (`lib.rs` line 39). -/
def isComment (s : String) : Bool :=
  match dropWs s.data with
  | '/' :: '/' :: _ => true
  | _ => false

/-- `warn_re = ^\s*#!\[warn\(.*` (`lib.rs` line 40). -/
def isWarn (s : String) : Bool :=
  match dropWs s.data with
  | '#' :: '!' :: '[' :: 'w' :: 'a' :: 'r' :: 'n' :: '(' :: _ => true
  | _ => false

/-- The exact line matched by `extcrate_re = ^extern crate <name>;$`
(`lib.rs` lines 79-81): anchored on both sides, no leading whitespace. -/
def crateDecl (crate : String) : String :=
  "extern crate " ++ crate ++ ";"

/-- `usecrate_re = ^use <name>::(.*);$` (`lib.rs` lines 82-84): returns the
captured path on a match.  Anchored on both sides, the greedy `(.*)`
captures everything up to the final semicolon. -/
def useCrateCapture (crate s : String) : Option String :=
  match stripPre ("use " ++ crate ++ "::").data s.data with
  | some rest =>
    match endSemi rest with
    | some mid => some (String.mk mid)
    | none => none
  | none => none

/-- `mod_re = ^\s*pub mod (.+);$` (`lib.rs` lines 110 and 153): returns the
captured module name on a match; the capture must be nonempty. -/
def modCapture (s : String) : Option String :=
  match stripPre "pub mod ".data (dropWs s.data) with
  | some rest =>
    match endSemi rest with
    | some [] => none
    | some mid => some (String.mk mid)
    | none => none
  | none => none

/-- `const LIBRS_FILENAME: &str = "src/lib.rs";` (`lib.rs` line 19). -/
def LIBRS_FILENAME : String := "src/lib.rs"

/-- The filesystem a run sees: path to list of raw lines. -/
def FS : Type := String → Option (List String)

/-- The `Bundler` struct (`lib.rs` lines 21-31).  The two constant regexes
`comment_re`/`warn_re` are modelled by the fixed functions above; the
optional minify regex is modelled by the `Bool` that records its
presence. -/
structure Bundler where
  binrs_filename : String
  bundle_filename : String
  librs_filename : String
  _crate_name : String
  skip_use : List String
  minify_re : Bool
  deriving DecidableEq

/-- `Bundler::new` (`lib.rs` lines 34-45). -/
def Bundler.new (binrs_filename bundle_filename : String) : Bundler :=
  { binrs_filename := binrs_filename
    bundle_filename := bundle_filename
    librs_filename := LIBRS_FILENAME
    _crate_name := ""
    skip_use := []
    minify_re := false }

/-- `Bundler::minify_set` (`lib.rs` lines 47-53). -/
def minify_set (b : Bundler) (enable : Bool) : Bundler :=
  { b with minify_re := enable }

/-- `Bundler::crate_name` (`lib.rs` lines 55-57). -/
def crate_name (b : Bundler) (name : String) : Bundler :=
  { b with _crate_name := name }

/-- `HashSet::insert` on the modelled suppression set. -/
def hsInsert (x : String) (l : List String) : List String :=
  if x ∈ l then l else x :: l

/-- Ghost provenance of an output line: the entry (`main`) file, the
library root, or the file of the module `modFile name path import`. -/
inductive Origin where
  | entry : Origin
  | lib : Origin
  | modFile : String → String → String → Origin
  deriving DecidableEq

/-- Ghost tag saying which write produced an output line. -/
inductive OutKind where
  | openDelim : OutKind
  | closeDelim : OutKind
  | useLine : OutKind
  | text : OutKind
  deriving DecidableEq

/-- One line written to the bundle: the text `content` plus ghost tags. -/
structure OutLine where
  origin : Origin
  kind : OutKind
  content : String
  deriving DecidableEq

/-- `Bundler::write_line` (`lib.rs` lines 181-187).  With minification on,
`minify_re = ^\s*(?P<contents>.*)\s*$` replaced by `$contents` strips the
leading whitespace (the greedy `.*` keeps any trailing whitespace, which
`trim_end` has already removed upstream). -/
def write_line (b : Bundler) (line : String) : String :=
  if b.minify_re then String.mk (dropWs line.data) else line

/-- Errors of a run: `File::open(binrs)?`, the `expect` on opening
`lib.rs`, the `assert!` when neither module candidate file exists, and
exhaustion of the recursion fuel. -/
inductive BErr where
  | binrsNotFound : BErr
  | librsNotFound : BErr
  | moduleNotFound : String → BErr
  | outOfFuel : BErr
  deriving DecidableEq

/-- The type of the recursive module expander threaded through the
line-processing loops: arguments are the state and
(`mod_name`, `mod_path`, `mod_import`). -/
abbrev Expander :=
  Bundler → String → String → String → Except BErr (Bundler × List OutLine)

/-- The candidate-file lookup of `Bundler::usemod` (`lib.rs` lines
139-151): try `src/<path>.rs` then `src/<path>/mod.rs`; the first that
opens wins. -/
def resolveModule (fs : FS) (mod_path : String) : Option (List String) :=
  match fs ("src/" ++ mod_path ++ ".rs") with
  | some body => some body
  | none => fs ("src/" ++ mod_path ++ "/mod.rs")

/-- The body loop of `Bundler::usemod` (`lib.rs` lines 160-174),
parameterised by the recursive expander `um` used for nested
`pub mod` declarations. -/
def usemodBody (um : Expander) (mod_name mod_path mod_import : String) :
    Bundler → List String → Except BErr (Bundler × List OutLine)
  | b, [] => Except.ok (b, [])
  | b, raw :: rest =>
    let line := trimR raw
    if isComment line || isWarn line then
      usemodBody um mod_name mod_path mod_import b rest
    else
      match modCapture line with
      | some submodname =>
        if submodname = "tests" then
          usemodBody um mod_name mod_path mod_import b rest
        else
          match um b submodname (mod_path ++ "/" ++ submodname)
              (mod_import ++ "::" ++ submodname) with
          | Except.error e => Except.error e
          | Except.ok (b2, out1) =>
            match usemodBody um mod_name mod_path mod_import b2 rest with
            | Except.error e => Except.error e
            | Except.ok (b3, out2) => Except.ok (b3, out1 ++ out2)
      | none =>
        match usemodBody um mod_name mod_path mod_import b rest with
        | Except.error e => Except.error e
        | Except.ok (b2, out2) =>
          Except.ok (b2,
            ⟨Origin.modFile mod_name mod_path mod_import, OutKind.text,
              write_line b line⟩ :: out2)

/-- `Bundler::usemod` (`lib.rs` lines 132-179): resolve the module file,
emit the opening delimiter, insert `mod_import` into `skip_use`, process
the body (recursing on nested declarations with one unit less fuel), and
emit the closing delimiter. -/
def usemod (fs : FS) : Nat → Expander
  | 0 => fun _ _ _ _ => Except.error BErr.outOfFuel
  | fuel + 1 => fun b mod_name mod_path mod_import =>
    match resolveModule fs mod_path with
    | none => Except.error (BErr.moduleNotFound mod_path)
    | some body =>
      let org := Origin.modFile mod_name mod_path mod_import
      let b1 := { b with skip_use := hsInsert mod_import b.skip_use }
      match usemodBody (usemod fs fuel) mod_name mod_path mod_import b1 body with
      | Except.error e => Except.error e
      | Except.ok (b2, out) =>
        Except.ok (b2,
          ⟨org, OutKind.openDelim, "pub mod " ++ mod_name ++ " \x7b"⟩ ::
            (out ++ [⟨org, OutKind.closeDelim, "\x7d"⟩]))

/-- The line loop of `Bundler::librs` (`lib.rs` lines 112-125),
parameterised by the expander used for `pub mod` declarations. -/
def librsLines (um : Expander) :
    Bundler → List String → Except BErr (Bundler × List OutLine)
  | b, [] => Except.ok (b, [])
  | b, raw :: rest =>
    let line := trimR raw
    if isComment line || isWarn line then
      librsLines um b rest
    else
      match modCapture line with
      | some modname =>
        if modname = "tests" then
          librsLines um b rest
        else
          match um b modname modname modname with
          | Except.error e => Except.error e
          | Except.ok (b2, out1) =>
            match librsLines um b2 rest with
            | Except.error e => Except.error e
            | Except.ok (b3, out2) => Except.ok (b3, out1 ++ out2)
      | none =>
        match librsLines um b rest with
        | Except.error e => Except.error e
        | Except.ok (b2, out2) =>
          Except.ok (b2, ⟨Origin.lib, OutKind.text, write_line b line⟩ :: out2)

/-- `Bundler::librs` (`lib.rs` lines 106-127): open `self.librs_filename`
(the `expect` panic modelled as an error) and run the line loop. -/
def librs (fs : FS) (fuel : Nat) (b : Bundler) :
    Except BErr (Bundler × List OutLine) :=
  match fs b.librs_filename with
  | none => Except.error BErr.librsNotFound
  | some ls => librsLines (usemod fs fuel) b ls

/-- The line loop of `Bundler::binrs` (`lib.rs` lines 86-101).  The crate
name is fixed once at loop entry, exactly as the two regexes are compiled
once from `self._crate_name` before the loop. -/
def binrsLines (fs : FS) (fuel : Nat) (crate : String) :
    Bundler → List String → Except BErr (Bundler × List OutLine)
  | b, [] => Except.ok (b, [])
  | b, raw :: rest =>
    let line := trimR raw
    if isComment line || isWarn line then
      binrsLines fs fuel crate b rest
    else if line = crateDecl crate then
      match librs fs fuel b with
      | Except.error e => Except.error e
      | Except.ok (b2, out1) =>
        match binrsLines fs fuel crate b2 rest with
        | Except.error e => Except.error e
        | Except.ok (b3, out2) => Except.ok (b3, out1 ++ out2)
    else
      match useCrateCapture crate line with
      | some moduse =>
        if moduse ∈ b.skip_use then
          binrsLines fs fuel crate b rest
        else
          match binrsLines fs fuel crate b rest with
          | Except.error e => Except.error e
          | Except.ok (b2, out2) =>
            Except.ok (b2,
              ⟨Origin.entry, OutKind.useLine, "use " ++ moduse ++ ";"⟩ :: out2)
      | none =>
        match binrsLines fs fuel crate b rest with
        | Except.error e => Except.error e
        | Except.ok (b2, out2) =>
          Except.ok (b2, ⟨Origin.entry, OutKind.text, write_line b line⟩ :: out2)

/-- `Bundler::binrs` (`lib.rs` lines 75-103): open the entry file and run
its line loop. -/
def binrs (fs : FS) (fuel : Nat) (b : Bundler) :
    Except BErr (Bundler × List OutLine) :=
  match fs b.binrs_filename with
  | none => Except.error BErr.binrsNotFound
  | some ls => binrsLines fs fuel b._crate_name b ls

/-- `Bundler::run` (`lib.rs` lines 59-70), as the produced bundle: the
output-file creation and the cargo directive are I/O outside the model;
any error of `binrs` aborts the run (`unwrap_or_else` + `panic!`). -/
def run (fs : FS) (fuel : Nat) (b : Bundler) : Except BErr (List OutLine) :=
  Except.map (fun r => r.2) (binrs fs fuel b)

/-- The text actually written to the bundle file, in order. -/
def outputText (l : List OutLine) : List String :=
  l.map (fun x => x.content)

/-! ## Predicates used by the theorems below -/

/-- No line of `l` originates from the expansion of a module whose
captured name is literally `tests`. -/
def noTests (l : List OutLine) : Prop :=
  ∀ x ∈ l, ∀ p i, x.origin ≠ Origin.modFile "tests" p i

/-- Number of opening module-block delimiters in an output fragment. -/
def openCount : List OutLine → Nat
  | [] => 0
  | x :: xs => (if x.kind = OutKind.openDelim then 1 else 0) + openCount xs

/-- Number of closing module-block delimiters in an output fragment. -/
def closeCount : List OutLine → Nat
  | [] => 0
  | x :: xs => (if x.kind = OutKind.closeDelim then 1 else 0) + closeCount xs

/-- Delimiter balance: scanning left to right, the number of closing
delimiters never exceeds the number of opening ones, and the totals
agree (each opening delimiter has exactly one matching closing one). -/
def balanced (l : List OutLine) : Prop :=
  closeCount l = openCount l ∧
    ∀ p q : List OutLine, l = p ++ q → closeCount p ≤ openCount p

/-- Effect of enabling minification on one written line: passthrough text
loses its leading whitespace, all other writes are byte-identical. -/
def minifyItem (x : OutLine) : OutLine :=
  if x.kind = OutKind.text then
    ⟨x.origin, x.kind, String.mk (dropWs x.content.data)⟩
  else x

/-- Two bundler states identical except that the first has minification
enabled and the second disabled. -/
def MinPair (b1 b2 : Bundler) : Prop :=
  b1 = minify_set b2 true ∧ b2.minify_re = false

/-! ## Concrete example inputs used by witnesses and counterexamples -/

/-- A small crate: the entry file imports the library, `lib.rs` declares
modules `a`, `b` and `tests` (with no file backing `tests`), and `b`'s
file contains a crate-qualified import of its sibling `a`. -/
def demoFS : FS := fun path =>
  if path = "main.rs" then
    some ["extern crate demo;", "use demo::a;", "use demo::zzz;"]
  else if path = "src/lib.rs" then
    some ["pub mod a;", "pub mod b;", "pub mod tests;", "fn root() \x7b\x7d"]
  else if path = "src/a.rs" then some ["pub fn fa() \x7b\x7d"]
  else if path = "src/b.rs" then some ["use demo::a;"]
  else none

/-- `Bundler::new` followed by `crate_name("demo")`. -/
def demoBundler : Bundler := crate_name (Bundler.new "main.rs" "out.rs") "demo"

/-- The trace produced by running the bundler on `demoFS`. -/
def demoOut : List OutLine :=
  [⟨Origin.modFile "a" "a" "a", OutKind.openDelim, "pub mod a \x7b"⟩,
   ⟨Origin.modFile "a" "a" "a", OutKind.text, "pub fn fa() \x7b\x7d"⟩,
   ⟨Origin.modFile "a" "a" "a", OutKind.closeDelim, "\x7d"⟩,
   ⟨Origin.modFile "b" "b" "b", OutKind.openDelim, "pub mod b \x7b"⟩,
   ⟨Origin.modFile "b" "b" "b", OutKind.text, "use demo::a;"⟩,
   ⟨Origin.modFile "b" "b" "b", OutKind.closeDelim, "\x7d"⟩,
   ⟨Origin.lib, OutKind.text, "fn root() \x7b\x7d"⟩,
   ⟨Origin.entry, OutKind.useLine, "use zzz;"⟩]

/-- An entry file that declares a module with an existing backing file. -/
def entryModFS : FS := fun path =>
  if path = "main.rs" then some ["pub mod foo;"]
  else if path = "src/foo.rs" then some ["pub fn g() \x7b\x7d"] else none

/-- A crate whose library root declares a module with no backing file
under either naming convention. -/
def lostFS : FS := fun path =>
  if path = "main.rs" then some ["extern crate demo;"]
  else if path = "src/lib.rs" then some ["pub mod m;"] else none

/-! ## Basic facts about the string matchers -/

theorem stripPre_eq_some {pre l r : List Char} (h : stripPre pre l = some r) :
    l = pre ++ r := by
  induction pre generalizing l with
  | nil => simpa [stripPre] using h
  | cons p ps ih =>
    cases l with
    | nil => simp [stripPre] at h
    | cons c cs =>
      by_cases hpc : p = c
      · subst hpc
        simp only [stripPre, if_pos rfl] at h
        simpa using ih h
      · simp [stripPre, hpc] at h

theorem useCrate_data_shape {c s : String} {p : String}
    (h : useCrateCapture c s = some p) :
    ∃ t, s.data = 'u' :: 's' :: 'e' :: ' ' :: t := by
  unfold useCrateCapture at h
  rcases hm : stripPre ("use " ++ c ++ "::").data s.data with _ | rest
  · rw [hm] at h; exact absurd h (by simp)
  · have hdat : s.data = ("use " ++ c ++ "::").data ++ rest := stripPre_eq_some hm
    refine ⟨c.data ++ (":" ++ ":").data ++ rest, ?_⟩
    rw [hdat]
    simp [String.data_append]

theorem modCapture_data_shape {s : String} {m : String}
    (h : modCapture s = some m) :
    ∃ t, dropWs s.data = 'p' :: 'u' :: 'b' :: ' ' :: 'm' :: 'o' :: 'd' :: ' ' :: t := by
  unfold modCapture at h
  rcases hm : stripPre "pub mod ".data (dropWs s.data) with _ | rest
  · rw [hm] at h; exact absurd h (by simp)
  · have hdat : dropWs s.data = "pub mod ".data ++ rest := stripPre_eq_some hm
    exact ⟨rest, by simpa using hdat⟩

theorem crateDecl_data (c : String) :
    (crateDecl c).data =
      'e' :: 'x' :: 't' :: 'e' :: 'r' :: 'n' :: ' ' :: 'c' :: 'r' :: 'a' :: 't' :: 'e' :: ' ' :: (c.data ++ [';']) := by
  unfold crateDecl
  simp [String.data_append]

theorem dropWs_cons (c : Char) (l : List Char) :
    dropWs (c :: l) = if isWs c then dropWs l else c :: l := rfl

theorem isWs_elim {c : Char} (h : isWs c = true) :
    c = ' ' ∨ c = '\t' ∨ c = '\r' ∨ c = '\n' := by
  simpa [isWs, or_assoc] using h

/-- A line captured by the use-crate regex is not a comment, not a lint
attribute, not the extern-crate line, and not a module declaration. -/
theorem use_not_comment {c s p : String} (h : useCrateCapture c s = some p) :
    isComment s = false := by
  obtain ⟨t, ht⟩ := useCrate_data_shape h
  simp [isComment, ht, dropWs_cons, isWs]

theorem use_not_warn {c s p : String} (h : useCrateCapture c s = some p) :
    isWarn s = false := by
  obtain ⟨t, ht⟩ := useCrate_data_shape h
  simp [isWarn, ht, dropWs_cons, isWs]

theorem use_ne_crateDecl {c c' s p : String} (h : useCrateCapture c s = some p) :
    s ≠ crateDecl c' := by
  obtain ⟨t, ht⟩ := useCrate_data_shape h
  intro hs
  have : s.data = (crateDecl c').data := by rw [hs]
  rw [ht, crateDecl_data] at this
  exact absurd (List.head_eq_of_cons_eq this) (by decide)

theorem use_not_mod {c s p : String} (h : useCrateCapture c s = some p) :
    modCapture s = none := by
  obtain ⟨t, ht⟩ := useCrate_data_shape h
  unfold modCapture
  rw [ht]
  simp [dropWs_cons, isWs, stripPre]

/-- A line captured by the mod-declaration regex is not a comment, not a
lint attribute, not the extern-crate line, and not a use-crate line. -/
theorem mod_not_comment {s m : String} (h : modCapture s = some m) :
    isComment s = false := by
  obtain ⟨t, ht⟩ := modCapture_data_shape h
  simp [isComment, ht]

theorem mod_not_warn {s m : String} (h : modCapture s = some m) :
    isWarn s = false := by
  obtain ⟨t, ht⟩ := modCapture_data_shape h
  simp [isWarn, ht]

theorem mod_ne_crateDecl {c s m : String} (h : modCapture s = some m) :
    s ≠ crateDecl c := by
  obtain ⟨t, ht⟩ := modCapture_data_shape h
  intro hs
  subst hs
  rw [crateDecl_data] at ht
  simp [dropWs_cons, isWs] at ht

theorem mod_not_use {c s m : String} (h : modCapture s = some m) :
    useCrateCapture c s = none := by
  obtain ⟨t, ht⟩ := modCapture_data_shape h
  unfold useCrateCapture
  rcases hd : s.data with _ | ⟨c0, cs⟩
  · rw [hd] at ht; simp [dropWs] at ht
  · have hpre : ("use " ++ c ++ "::").data = 'u' :: 's' :: 'e' :: ' ' :: (c.data ++ (":" ++ ":").data) := by
      simp [String.data_append]
    rw [hd, dropWs_cons] at ht
    by_cases hws : isWs c0 = true
    · have hne : c0 ≠ 'u' := by
        rcases isWs_elim hws with h1 | h1 | h1 | h1 <;> simp [h1]
      rw [hpre]
      simp only [stripPre]
      rw [if_neg (Ne.symm hne)]
    · rw [if_neg hws] at ht
      have hp : c0 = 'p' := List.head_eq_of_cons_eq ht
      subst hp
      rw [hpre]
      simp [stripPre]

/-! ## Step equations for the line-processing loops -/

theorem crateDecl_not_comment (c : String) : isComment (crateDecl c) = false := by
  simp [isComment, crateDecl_data, dropWs_cons, isWs]

theorem crateDecl_not_warn (c : String) : isWarn (crateDecl c) = false := by
  simp [isWarn, crateDecl_data, dropWs_cons, isWs]

/-- A suppressed use-crate line in the entry file is dropped: processing
continues with the same state and nothing is emitted. -/
theorem binrsLines_use_mem {fs : FS} {fuel : Nat} {crate : String} {b : Bundler}
    {raw : String} {rest : List String} {p : String}
    (hc : useCrateCapture crate (trimR raw) = some p) (hmem : p ∈ b.skip_use) :
    binrsLines fs fuel crate b (raw :: rest) = binrsLines fs fuel crate b rest := by
  rw [binrsLines]
  simp only [use_not_comment hc, use_not_warn hc, hc, Bool.or_self,
    if_neg (use_ne_crateDecl hc), if_pos hmem]
  simp

/-- An unsuppressed use-crate line in the entry file is rewritten to the
local import `use <path>;` and emitted before the rest of the output. -/
theorem binrsLines_use_notMem {fs : FS} {fuel : Nat} {crate : String} {b : Bundler}
    {raw : String} {rest : List String} {p : String}
    (hc : useCrateCapture crate (trimR raw) = some p) (hmem : p ∉ b.skip_use) :
    binrsLines fs fuel crate b (raw :: rest) =
      Except.map
        (fun r => (r.1, ⟨Origin.entry, OutKind.useLine, "use " ++ p ++ ";"⟩ :: r.2))
        (binrsLines fs fuel crate b rest) := by
  rw [binrsLines]
  simp only [use_not_comment hc, use_not_warn hc, hc, Bool.or_self,
    if_neg (use_ne_crateDecl hc), if_neg hmem]
  rcases binrsLines fs fuel crate b rest with e | ⟨b2, out2⟩ <;> simp [Except.map]

/-- A line of the entry file matched by none of the four patterns is
emitted through `write_line` as passthrough text. -/
theorem binrsLines_passthrough {fs : FS} {fuel : Nat} {crate : String} {b : Bundler}
    {raw : String} {rest : List String}
    (h1 : isComment (trimR raw) = false) (h2 : isWarn (trimR raw) = false)
    (h3 : trimR raw ≠ crateDecl crate)
    (h4 : useCrateCapture crate (trimR raw) = none) :
    binrsLines fs fuel crate b (raw :: rest) =
      Except.map
        (fun r => (r.1, ⟨Origin.entry, OutKind.text, write_line b (trimR raw)⟩ :: r.2))
        (binrsLines fs fuel crate b rest) := by
  rw [binrsLines]
  simp only [h1, h2, h4, Bool.or_self, if_neg h3]
  rcases binrsLines fs fuel crate b rest with e | ⟨b2, out2⟩ <;> simp [Except.map]

/-- A comment or lint-attribute line of the entry file is dropped. -/
theorem binrsLines_drop {fs : FS} {fuel : Nat} {crate : String} {b : Bundler}
    {raw : String} {rest : List String}
    (h : isComment (trimR raw) = true ∨ isWarn (trimR raw) = true) :
    binrsLines fs fuel crate b (raw :: rest) = binrsLines fs fuel crate b rest := by
  rw [binrsLines]
  rcases h with h | h <;> simp [h]

/-- The extern-crate line of the entry file expands the library root and
splices its output in front of the rest. -/
theorem binrsLines_extcrate {fs : FS} {fuel : Nat} {crate : String} {b : Bundler}
    {raw : String} {rest : List String}
    (h : trimR raw = crateDecl crate) :
    binrsLines fs fuel crate b (raw :: rest) =
      Except.bind (librs fs fuel b) (fun r1 =>
        Except.map (fun r2 => (r2.1, r1.2 ++ r2.2))
          (binrsLines fs fuel crate r1.1 rest)) := by
  rw [binrsLines]
  simp only [h, crateDecl_not_comment, crateDecl_not_warn, Bool.or_self, if_pos rfl]
  rcases librs fs fuel b with e | ⟨b2, out1⟩
  · simp [Except.bind]
  · simp only [Except.bind]
    rcases binrsLines fs fuel crate b2 rest with e | ⟨b3, out2⟩ <;> simp [Except.map]

/-- A `pub mod tests;` declaration inside a module file is dropped whole:
no output, no recursion, no state change. -/
theorem usemodBody_tests {um : Expander} {n p i : String} {b : Bundler}
    {raw : String} {rest : List String}
    (hm : modCapture (trimR raw) = some "tests") :
    usemodBody um n p i b (raw :: rest) = usemodBody um n p i b rest := by
  rw [usemodBody]
  simp [mod_not_comment hm, mod_not_warn hm, hm]

/-- A non-`tests` `pub mod` declaration inside a module file always
recurses into the expander, with the extended path and import path;
the suppression set is never consulted first. -/
theorem usemodBody_mod {um : Expander} {n p i : String} {b : Bundler}
    {raw : String} {rest : List String} {m : String}
    (hm : modCapture (trimR raw) = some m) (hne : m ≠ "tests") :
    usemodBody um n p i b (raw :: rest) =
      Except.bind (um b m (p ++ "/" ++ m) (i ++ "::" ++ m)) (fun r1 =>
        Except.map (fun r2 => (r2.1, r1.2 ++ r2.2))
          (usemodBody um n p i r1.1 rest)) := by
  rw [usemodBody]
  simp only [mod_not_comment hm, mod_not_warn hm, hm, Bool.or_self, if_neg hne]
  rcases um b m (p ++ "/" ++ m) (i ++ "::" ++ m) with e | ⟨b2, out1⟩
  · simp [Except.bind]
  · simp only [Except.bind]
    rcases usemodBody um n p i b2 rest with e | ⟨b3, out2⟩ <;> simp [Except.map]

/-- A line of a module body that is not a comment, lint attribute or
module declaration is emitted through `write_line` as passthrough text. -/
theorem usemodBody_text {um : Expander} {n p i : String} {b : Bundler}
    {raw : String} {rest : List String}
    (h1 : isComment (trimR raw) = false) (h2 : isWarn (trimR raw) = false)
    (h3 : modCapture (trimR raw) = none) :
    usemodBody um n p i b (raw :: rest) =
      Except.map
        (fun r => (r.1,
          ⟨Origin.modFile n p i, OutKind.text, write_line b (trimR raw)⟩ :: r.2))
        (usemodBody um n p i b rest) := by
  rw [usemodBody]
  simp only [h1, h2, h3, Bool.or_self]
  rcases usemodBody um n p i b rest with e | ⟨b2, out2⟩ <;> simp [Except.map]

/-- A `pub mod tests;` declaration in the library root is dropped whole. -/
theorem librsLines_tests {um : Expander} {b : Bundler}
    {raw : String} {rest : List String}
    (hm : modCapture (trimR raw) = some "tests") :
    librsLines um b (raw :: rest) = librsLines um b rest := by
  rw [librsLines]
  simp [mod_not_comment hm, mod_not_warn hm, hm]

/-- A non-`tests` `pub mod` declaration in the library root always
recurses into the expander with name = path = import path; the
suppression set is never consulted first. -/
theorem librsLines_mod {um : Expander} {b : Bundler}
    {raw : String} {rest : List String} {m : String}
    (hm : modCapture (trimR raw) = some m) (hne : m ≠ "tests") :
    librsLines um b (raw :: rest) =
      Except.bind (um b m m m) (fun r1 =>
        Except.map (fun r2 => (r2.1, r1.2 ++ r2.2)) (librsLines um r1.1 rest)) := by
  rw [librsLines]
  simp only [mod_not_comment hm, mod_not_warn hm, hm, Bool.or_self, if_neg hne]
  rcases um b m m m with e | ⟨b2, out1⟩
  · simp [Except.bind]
  · simp only [Except.bind]
    rcases librsLines um b2 rest with e | ⟨b3, out2⟩ <;> simp [Except.map]

/-! ## The suppression set only grows -/

theorem hsInsert_mem {x y : String} {l : List String} (h : x ∈ l) :
    x ∈ hsInsert y l := by
  unfold hsInsert
  split <;> simp [h]

theorem hsInsert_self (y : String) (l : List String) : y ∈ hsInsert y l := by
  unfold hsInsert
  split <;> simp_all

theorem usemodBody_skip_mono {um : Expander}
    (hum : ∀ b n2 p2 i2 r, um b n2 p2 i2 = Except.ok r → b.skip_use ⊆ r.1.skip_use)
    (n p i : String) :
    ∀ (ls : List String) (b : Bundler) (r : Bundler × List OutLine),
      usemodBody um n p i b ls = Except.ok r → b.skip_use ⊆ r.1.skip_use := by
  intro ls
  induction ls with
  | nil =>
    intro b r h
    simp only [usemodBody] at h
    cases h
    exact fun x hx => hx
  | cons raw rest ih =>
    intro b r h
    simp only [usemodBody] at h
    by_cases hcw : (isComment (trimR raw) || isWarn (trimR raw)) = true
    · rw [if_pos hcw] at h; exact ih b r h
    · rw [if_neg hcw] at h
      rcases hmc : modCapture (trimR raw) with _ | m
      · simp only [hmc] at h
        rcases hrest : usemodBody um n p i b rest with e | ⟨b2, out2⟩
        · simp only [hrest] at h; exact absurd h (by simp)
        · simp only [hrest] at h
          cases h
          exact ih b (b2, out2) hrest
      · simp only [hmc] at h
        by_cases hts : m = "tests"
        · rw [if_pos hts] at h; exact ih b r h
        · rw [if_neg hts] at h
          rcases hum1 : um b m (p ++ "/" ++ m) (i ++ "::" ++ m) with e | ⟨b2, out1⟩
          · simp only [hum1] at h; exact Except.noConfusion h
          · simp only [hum1] at h
            rcases hrest : usemodBody um n p i b2 rest with e | ⟨b3, out2⟩
            · simp only [hrest] at h; exact Except.noConfusion h
            · simp only [hrest] at h
              cases h
              exact fun x hx => ih b2 _ hrest (hum _ _ _ _ _ hum1 hx)

theorem usemod_skip_mono (fs : FS) :
    ∀ (fuel : Nat) (b : Bundler) (n p i : String) (r : Bundler × List OutLine),
      usemod fs fuel b n p i = Except.ok r → b.skip_use ⊆ r.1.skip_use := by
  intro fuel
  induction fuel with
  | zero => intro b n p i r h; exact absurd h (by simp [usemod])
  | succ fuel ih =>
    intro b n p i r h
    simp only [usemod] at h
    rcases hres : resolveModule fs p with _ | body
    · simp only [hres] at h; exact Except.noConfusion h
    · simp only [hres] at h
      rcases hbody : usemodBody (usemod fs fuel) n p i
          { b with skip_use := hsInsert i b.skip_use } body with e | ⟨b2, out⟩
      · simp only [hbody] at h; exact Except.noConfusion h
      · simp only [hbody] at h
        cases h
        intro x hx
        exact usemodBody_skip_mono (fun b' n' p' i' r' h' => ih b' n' p' i' r' h')
          n p i body _ _ hbody (hsInsert_mem hx)

/-- A successful `usemod` leaves its import path in the suppression set. -/
theorem usemod_skip_insert (fs : FS) (fuel : Nat) (b : Bundler) (n p i : String)
    (r : Bundler × List OutLine) (h : usemod fs fuel b n p i = Except.ok r) :
    i ∈ r.1.skip_use := by
  cases fuel with
  | zero => exact absurd h (by simp [usemod])
  | succ fuel =>
    simp only [usemod] at h
    rcases hres : resolveModule fs p with _ | body
    · simp only [hres] at h; exact Except.noConfusion h
    · simp only [hres] at h
      rcases hbody : usemodBody (usemod fs fuel) n p i
          { b with skip_use := hsInsert i b.skip_use } body with e | ⟨b2, out⟩
      · simp only [hbody] at h; exact Except.noConfusion h
      · simp only [hbody] at h
        cases h
        exact usemodBody_skip_mono (fun b' n' p' i' r' h' =>
            usemod_skip_mono fs fuel b' n' p' i' r' h')
          n p i body _ _ hbody (hsInsert_self i b.skip_use)

theorem librsLines_skip_mono {um : Expander}
    (hum : ∀ b n2 p2 i2 r, um b n2 p2 i2 = Except.ok r → b.skip_use ⊆ r.1.skip_use) :
    ∀ (ls : List String) (b : Bundler) (r : Bundler × List OutLine),
      librsLines um b ls = Except.ok r → b.skip_use ⊆ r.1.skip_use := by
  intro ls
  induction ls with
  | nil =>
    intro b r h
    simp only [librsLines] at h
    cases h
    exact fun x hx => hx
  | cons raw rest ih =>
    intro b r h
    simp only [librsLines] at h
    by_cases hcw : (isComment (trimR raw) || isWarn (trimR raw)) = true
    · rw [if_pos hcw] at h; exact ih b r h
    · rw [if_neg hcw] at h
      rcases hmc : modCapture (trimR raw) with _ | m
      · simp only [hmc] at h
        rcases hrest : librsLines um b rest with e | ⟨b2, out2⟩
        · simp only [hrest] at h; exact Except.noConfusion h
        · simp only [hrest] at h
          cases h
          exact ih b (b2, out2) hrest
      · simp only [hmc] at h
        by_cases hts : m = "tests"
        · rw [if_pos hts] at h; exact ih b r h
        · rw [if_neg hts] at h
          rcases hum1 : um b m m m with e | ⟨b2, out1⟩
          · simp only [hum1] at h; exact Except.noConfusion h
          · simp only [hum1] at h
            rcases hrest : librsLines um b2 rest with e | ⟨b3, out2⟩
            · simp only [hrest] at h; exact Except.noConfusion h
            · simp only [hrest] at h
              cases h
              exact fun x hx => ih b2 _ hrest (hum _ _ _ _ _ hum1 hx)

theorem librs_skip_mono (fs : FS) (fuel : Nat) (b : Bundler)
    (r : Bundler × List OutLine) (h : librs fs fuel b = Except.ok r) :
    b.skip_use ⊆ r.1.skip_use := by
  unfold librs at h
  rcases hfs : fs b.librs_filename with _ | ls
  · simp only [hfs] at h; exact Except.noConfusion h
  · simp only [hfs] at h
    exact librsLines_skip_mono (usemod_skip_mono fs fuel) ls b r h

theorem binrsLines_skip_mono (fs : FS) (fuel : Nat) (crate : String) :
    ∀ (ls : List String) (b : Bundler) (r : Bundler × List OutLine),
      binrsLines fs fuel crate b ls = Except.ok r → b.skip_use ⊆ r.1.skip_use := by
  intro ls
  induction ls with
  | nil =>
    intro b r h
    simp only [binrsLines] at h
    cases h
    exact fun x hx => hx
  | cons raw rest ih =>
    intro b r h
    simp only [binrsLines] at h
    by_cases hcw : (isComment (trimR raw) || isWarn (trimR raw)) = true
    · rw [if_pos hcw] at h; exact ih b r h
    · rw [if_neg hcw] at h
      by_cases hec : trimR raw = crateDecl crate
      · rw [if_pos hec] at h
        rcases hlib : librs fs fuel b with e | ⟨b2, out1⟩
        · simp only [hlib] at h; exact Except.noConfusion h
        · simp only [hlib] at h
          rcases hrest : binrsLines fs fuel crate b2 rest with e | ⟨b3, out2⟩
          · simp only [hrest] at h; exact Except.noConfusion h
          · simp only [hrest] at h
            cases h
            exact fun x hx => ih b2 _ hrest (librs_skip_mono fs fuel b _ hlib hx)
      · rw [if_neg hec] at h
        rcases huc : useCrateCapture crate (trimR raw) with _ | moduse
        · simp only [huc] at h
          rcases hrest : binrsLines fs fuel crate b rest with e | ⟨b2, out2⟩
          · simp only [hrest] at h; exact Except.noConfusion h
          · simp only [hrest] at h
            cases h
            exact ih b (b2, out2) hrest
        · simp only [huc] at h
          by_cases hmem : moduse ∈ b.skip_use
          · rw [if_pos hmem] at h; exact ih b r h
          · rw [if_neg hmem] at h
            rcases hrest : binrsLines fs fuel crate b rest with e | ⟨b2, out2⟩
            · simp only [hrest] at h; exact Except.noConfusion h
            · simp only [hrest] at h
              cases h
              exact ih b (b2, out2) hrest

theorem binrs_skip_mono (fs : FS) (fuel : Nat) (b : Bundler)
    (r : Bundler × List OutLine) (h : binrs fs fuel b = Except.ok r) :
    b.skip_use ⊆ r.1.skip_use := by
  unfold binrs at h
  rcases hfs : fs b.binrs_filename with _ | ls
  · simp only [hfs] at h; exact Except.noConfusion h
  · simp only [hfs] at h
    exact binrsLines_skip_mono fs fuel b._crate_name ls b r h

/-! ## No output line originates from a module named `tests` -/

theorem noTests_nil : noTests [] := by
  intro x hx
  simp at hx

theorem noTests_append {l1 l2 : List OutLine}
    (h1 : noTests l1) (h2 : noTests l2) : noTests (l1 ++ l2) := by
  intro x hx
  rcases List.mem_append.mp hx with hx | hx
  · exact h1 x hx
  · exact h2 x hx

theorem noTests_cons {x : OutLine} {l : List OutLine}
    (hx : ∀ p i, x.origin ≠ Origin.modFile "tests" p i) (h : noTests l) :
    noTests (x :: l) := by
  intro y hy
  rcases List.mem_cons.mp hy with hy | hy
  · subst hy; exact hx
  · exact h y hy

theorem usemodBody_noTests {um : Expander}
    (hum : ∀ b n2 p2 i2 r, n2 ≠ "tests" → um b n2 p2 i2 = Except.ok r → noTests r.2)
    {n : String} (hn : n ≠ "tests") (p i : String) :
    ∀ (ls : List String) (b : Bundler) (r : Bundler × List OutLine),
      usemodBody um n p i b ls = Except.ok r → noTests r.2 := by
  intro ls
  induction ls with
  | nil =>
    intro b r h
    simp only [usemodBody] at h
    cases h
    exact noTests_nil
  | cons raw rest ih =>
    intro b r h
    simp only [usemodBody] at h
    by_cases hcw : (isComment (trimR raw) || isWarn (trimR raw)) = true
    · rw [if_pos hcw] at h; exact ih b r h
    · rw [if_neg hcw] at h
      rcases hmc : modCapture (trimR raw) with _ | m
      · simp only [hmc] at h
        rcases hrest : usemodBody um n p i b rest with e | ⟨b2, out2⟩
        · simp only [hrest] at h; exact Except.noConfusion h
        · simp only [hrest] at h
          cases h
          exact noTests_cons (fun p' i' => by simp [hn]) (ih b (b2, out2) hrest)
      · simp only [hmc] at h
        by_cases hts : m = "tests"
        · rw [if_pos hts] at h; exact ih b r h
        · rw [if_neg hts] at h
          rcases hum1 : um b m (p ++ "/" ++ m) (i ++ "::" ++ m) with e | ⟨b2, out1⟩
          · simp only [hum1] at h; exact Except.noConfusion h
          · simp only [hum1] at h
            rcases hrest : usemodBody um n p i b2 rest with e | ⟨b3, out2⟩
            · simp only [hrest] at h; exact Except.noConfusion h
            · simp only [hrest] at h
              cases h
              exact noTests_append (hum _ _ _ _ _ hts hum1) (ih b2 (b3, out2) hrest)

theorem usemod_noTests (fs : FS) :
    ∀ (fuel : Nat) (b : Bundler) (n p i : String) (r : Bundler × List OutLine),
      n ≠ "tests" → usemod fs fuel b n p i = Except.ok r → noTests r.2 := by
  intro fuel
  induction fuel with
  | zero => intro b n p i r _ h; exact absurd h (by simp [usemod])
  | succ fuel ih =>
    intro b n p i r hn h
    simp only [usemod] at h
    rcases hres : resolveModule fs p with _ | body
    · simp only [hres] at h; exact Except.noConfusion h
    · simp only [hres] at h
      rcases hbody : usemodBody (usemod fs fuel) n p i
          { b with skip_use := hsInsert i b.skip_use } body with e | ⟨b2, out⟩
      · simp only [hbody] at h; exact Except.noConfusion h
      · simp only [hbody] at h
        cases h
        refine noTests_cons (fun p' i' => by simp [hn]) (noTests_append ?_ ?_)
        · exact usemodBody_noTests
            (fun b' n' p' i' r' hn' h' => ih b' n' p' i' r' hn' h') hn p i body _ _ hbody
        · exact noTests_cons (fun p' i' => by simp [hn]) noTests_nil

theorem librsLines_noTests {um : Expander}
    (hum : ∀ b n2 p2 i2 r, n2 ≠ "tests" → um b n2 p2 i2 = Except.ok r → noTests r.2) :
    ∀ (ls : List String) (b : Bundler) (r : Bundler × List OutLine),
      librsLines um b ls = Except.ok r → noTests r.2 := by
  intro ls
  induction ls with
  | nil =>
    intro b r h
    simp only [librsLines] at h
    cases h
    exact noTests_nil
  | cons raw rest ih =>
    intro b r h
    simp only [librsLines] at h
    by_cases hcw : (isComment (trimR raw) || isWarn (trimR raw)) = true
    · rw [if_pos hcw] at h; exact ih b r h
    · rw [if_neg hcw] at h
      rcases hmc : modCapture (trimR raw) with _ | m
      · simp only [hmc] at h
        rcases hrest : librsLines um b rest with e | ⟨b2, out2⟩
        · simp only [hrest] at h; exact Except.noConfusion h
        · simp only [hrest] at h
          cases h
          exact noTests_cons (fun p' i' => by simp) (ih b (b2, out2) hrest)
      · simp only [hmc] at h
        by_cases hts : m = "tests"
        · rw [if_pos hts] at h; exact ih b r h
        · rw [if_neg hts] at h
          rcases hum1 : um b m m m with e | ⟨b2, out1⟩
          · simp only [hum1] at h; exact Except.noConfusion h
          · simp only [hum1] at h
            rcases hrest : librsLines um b2 rest with e | ⟨b3, out2⟩
            · simp only [hrest] at h; exact Except.noConfusion h
            · simp only [hrest] at h
              cases h
              exact noTests_append (hum _ _ _ _ _ hts hum1) (ih b2 (b3, out2) hrest)

theorem librs_noTests (fs : FS) (fuel : Nat) (b : Bundler)
    (r : Bundler × List OutLine) (h : librs fs fuel b = Except.ok r) :
    noTests r.2 := by
  unfold librs at h
  rcases hfs : fs b.librs_filename with _ | ls
  · simp only [hfs] at h; exact Except.noConfusion h
  · simp only [hfs] at h
    exact librsLines_noTests
      (fun b' n' p' i' r' hn' h' => usemod_noTests fs fuel b' n' p' i' r' hn' h')
      ls b r h

theorem binrsLines_noTests (fs : FS) (fuel : Nat) (crate : String) :
    ∀ (ls : List String) (b : Bundler) (r : Bundler × List OutLine),
      binrsLines fs fuel crate b ls = Except.ok r → noTests r.2 := by
  intro ls
  induction ls with
  | nil =>
    intro b r h
    simp only [binrsLines] at h
    cases h
    exact noTests_nil
  | cons raw rest ih =>
    intro b r h
    simp only [binrsLines] at h
    by_cases hcw : (isComment (trimR raw) || isWarn (trimR raw)) = true
    · rw [if_pos hcw] at h; exact ih b r h
    · rw [if_neg hcw] at h
      by_cases hec : trimR raw = crateDecl crate
      · rw [if_pos hec] at h
        rcases hlib : librs fs fuel b with e | ⟨b2, out1⟩
        · simp only [hlib] at h; exact Except.noConfusion h
        · simp only [hlib] at h
          rcases hrest : binrsLines fs fuel crate b2 rest with e | ⟨b3, out2⟩
          · simp only [hrest] at h; exact Except.noConfusion h
          · simp only [hrest] at h
            cases h
            exact noTests_append (librs_noTests fs fuel b _ hlib) (ih b2 (b3, out2) hrest)
      · rw [if_neg hec] at h
        rcases huc : useCrateCapture crate (trimR raw) with _ | moduse
        · simp only [huc] at h
          rcases hrest : binrsLines fs fuel crate b rest with e | ⟨b2, out2⟩
          · simp only [hrest] at h; exact Except.noConfusion h
          · simp only [hrest] at h
            cases h
            exact noTests_cons (fun p' i' => by simp) (ih b (b2, out2) hrest)
        · simp only [huc] at h
          by_cases hmem : moduse ∈ b.skip_use
          · rw [if_pos hmem] at h; exact ih b r h
          · rw [if_neg hmem] at h
            rcases hrest : binrsLines fs fuel crate b rest with e | ⟨b2, out2⟩
            · simp only [hrest] at h; exact Except.noConfusion h
            · simp only [hrest] at h
              cases h
              exact noTests_cons (fun p' i' => by simp) (ih b (b2, out2) hrest)

theorem run_noTests (fs : FS) (fuel : Nat) (b : Bundler)
    (out : List OutLine) (h : run fs fuel b = Except.ok out) : noTests out := by
  unfold run at h
  rcases hb : binrs fs fuel b with e | ⟨b2, out2⟩
  · simp only [hb, Except.map] at h; exact Except.noConfusion h
  · simp only [hb, Except.map] at h
    cases h
    unfold binrs at hb
    rcases hfs : fs b.binrs_filename with _ | ls
    · simp only [hfs] at hb; exact Except.noConfusion hb
    · simp only [hfs] at hb
      exact binrsLines_noTests fs fuel b._crate_name ls b _ hb

/-! ## Module-block delimiters are balanced -/

theorem openCount_append (l1 l2 : List OutLine) :
    openCount (l1 ++ l2) = openCount l1 + openCount l2 := by
  induction l1 with
  | nil => simp [openCount]
  | cons x xs ih => simp [openCount, ih]; omega

theorem closeCount_append (l1 l2 : List OutLine) :
    closeCount (l1 ++ l2) = closeCount l1 + closeCount l2 := by
  induction l1 with
  | nil => simp [closeCount]
  | cons x xs ih => simp [closeCount, ih]; omega

theorem balanced_nil : balanced [] := by
  refine ⟨rfl, ?_⟩
  intro p q h
  have hp : p = [] := (List.append_eq_nil.mp h.symm).1
  simp [hp, closeCount, openCount]

theorem balanced_append {l1 l2 : List OutLine}
    (h1 : balanced l1) (h2 : balanced l2) : balanced (l1 ++ l2) := by
  refine ⟨by rw [openCount_append, closeCount_append, h1.1, h2.1], ?_⟩
  intro p q h
  rcases List.append_eq_append_iff.mp h with ⟨a', ha1, ha2⟩ | ⟨c', hc1, hc2⟩
  · calc closeCount p = closeCount l1 + closeCount a' := by
          rw [ha1, closeCount_append]
      _ = openCount l1 + closeCount a' := by rw [h1.1]
      _ ≤ openCount l1 + openCount a' :=
          Nat.add_le_add_left (h2.2 a' q ha2) _
      _ = openCount p := by rw [ha1, openCount_append]
  · exact h1.2 p c' hc1

theorem balanced_cons_neutral {x : OutLine} {l : List OutLine}
    (h1 : x.kind ≠ OutKind.openDelim) (h2 : x.kind ≠ OutKind.closeDelim)
    (h : balanced l) : balanced (x :: l) := by
  refine ⟨by simp [openCount, closeCount, h1, h2, h.1], ?_⟩
  intro p q hpq
  cases p with
  | nil => simp [closeCount, openCount]
  | cons z p' =>
    rw [List.cons_append] at hpq
    have hz : z = x := (List.head_eq_of_cons_eq hpq).symm
    have hl : l = p' ++ q := List.tail_eq_of_cons_eq hpq
    subst hz
    have hle := h.2 p' q hl
    simpa [closeCount, openCount, h1, h2] using hle

theorem balanced_wrap {x y : OutLine} {m : List OutLine}
    (hx : x.kind = OutKind.openDelim) (hy : y.kind = OutKind.closeDelim)
    (h : balanced m) : balanced (x :: (m ++ [y])) := by
  have hxc : x.kind ≠ OutKind.closeDelim := by rw [hx]; exact fun hh => by cases hh
  have hyo : y.kind ≠ OutKind.openDelim := by rw [hy]; exact fun hh => by cases hh
  refine ⟨?_, ?_⟩
  · simp [openCount, closeCount, openCount_append, closeCount_append, hx, hy,
      hxc, hyo, h.1]
    omega
  · intro p q hpq
    cases p with
    | nil => simp [closeCount, openCount]
    | cons z p' =>
      rw [List.cons_append] at hpq
      have hz : z = x := (List.head_eq_of_cons_eq hpq).symm
      have hl : m ++ [y] = p' ++ q := List.tail_eq_of_cons_eq hpq
      subst hz
      rcases List.append_eq_append_iff.mp hl with ⟨a', ha1, ha2⟩ | ⟨c', hc1, hc2⟩
      · cases a' with
        | nil =>
          have hp' : p' = m := by simpa using ha1
          subst hp'
          simp only [closeCount, openCount, if_pos hx, if_neg hxc, h.1]
          omega
        | cons w a'' =>
          have hw : y = w := List.head_eq_of_cons_eq ha2
          have h2 : [] = a'' ++ q := List.tail_eq_of_cons_eq ha2
          have ha'' : a'' = [] := (List.append_eq_nil.mp h2.symm).1
          subst hw
          subst ha''
          have hp' : p' = m ++ [y] := by simpa using ha1
          subst hp'
          simp only [closeCount, openCount, if_pos hx, if_neg hxc,
            closeCount_append, openCount_append, h.1]
          simp [closeCount, openCount, if_pos hy, if_neg hyo]
          omega
      · have hle := h.2 p' c' hc1
        simp only [closeCount, openCount, if_pos hx, if_neg hxc]
        omega

theorem usemodBody_balanced {um : Expander}
    (hum : ∀ b n2 p2 i2 r, um b n2 p2 i2 = Except.ok r → balanced r.2)
    (n p i : String) :
    ∀ (ls : List String) (b : Bundler) (r : Bundler × List OutLine),
      usemodBody um n p i b ls = Except.ok r → balanced r.2 := by
  intro ls
  induction ls with
  | nil =>
    intro b r h
    simp only [usemodBody] at h
    cases h
    exact balanced_nil
  | cons raw rest ih =>
    intro b r h
    simp only [usemodBody] at h
    by_cases hcw : (isComment (trimR raw) || isWarn (trimR raw)) = true
    · rw [if_pos hcw] at h; exact ih b r h
    · rw [if_neg hcw] at h
      rcases hmc : modCapture (trimR raw) with _ | m
      · simp only [hmc] at h
        rcases hrest : usemodBody um n p i b rest with e | ⟨b2, out2⟩
        · simp only [hrest] at h; exact Except.noConfusion h
        · simp only [hrest] at h
          cases h
          exact balanced_cons_neutral (by exact fun hh => by cases hh)
            (by exact fun hh => by cases hh) (ih b (b2, out2) hrest)
      · simp only [hmc] at h
        by_cases hts : m = "tests"
        · rw [if_pos hts] at h; exact ih b r h
        · rw [if_neg hts] at h
          rcases hum1 : um b m (p ++ "/" ++ m) (i ++ "::" ++ m) with e | ⟨b2, out1⟩
          · simp only [hum1] at h; exact Except.noConfusion h
          · simp only [hum1] at h
            rcases hrest : usemodBody um n p i b2 rest with e | ⟨b3, out2⟩
            · simp only [hrest] at h; exact Except.noConfusion h
            · simp only [hrest] at h
              cases h
              exact balanced_append (hum _ _ _ _ _ hum1) (ih b2 (b3, out2) hrest)

theorem usemod_balanced (fs : FS) :
    ∀ (fuel : Nat) (b : Bundler) (n p i : String) (r : Bundler × List OutLine),
      usemod fs fuel b n p i = Except.ok r → balanced r.2 := by
  intro fuel
  induction fuel with
  | zero => intro b n p i r h; exact absurd h (by simp [usemod])
  | succ fuel ih =>
    intro b n p i r h
    simp only [usemod] at h
    rcases hres : resolveModule fs p with _ | body
    · simp only [hres] at h; exact Except.noConfusion h
    · simp only [hres] at h
      rcases hbody : usemodBody (usemod fs fuel) n p i
          { b with skip_use := hsInsert i b.skip_use } body with e | ⟨b2, out⟩
      · simp only [hbody] at h; exact Except.noConfusion h
      · simp only [hbody] at h
        cases h
        exact balanced_wrap rfl rfl
          (usemodBody_balanced (fun b' n' p' i' r' h' => ih b' n' p' i' r' h')
            n p i body _ _ hbody)

theorem librsLines_balanced {um : Expander}
    (hum : ∀ b n2 p2 i2 r, um b n2 p2 i2 = Except.ok r → balanced r.2) :
    ∀ (ls : List String) (b : Bundler) (r : Bundler × List OutLine),
      librsLines um b ls = Except.ok r → balanced r.2 := by
  intro ls
  induction ls with
  | nil =>
    intro b r h
    simp only [librsLines] at h
    cases h
    exact balanced_nil
  | cons raw rest ih =>
    intro b r h
    simp only [librsLines] at h
    by_cases hcw : (isComment (trimR raw) || isWarn (trimR raw)) = true
    · rw [if_pos hcw] at h; exact ih b r h
    · rw [if_neg hcw] at h
      rcases hmc : modCapture (trimR raw) with _ | m
      · simp only [hmc] at h
        rcases hrest : librsLines um b rest with e | ⟨b2, out2⟩
        · simp only [hrest] at h; exact Except.noConfusion h
        · simp only [hrest] at h
          cases h
          exact balanced_cons_neutral (by exact fun hh => by cases hh)
            (by exact fun hh => by cases hh) (ih b (b2, out2) hrest)
      · simp only [hmc] at h
        by_cases hts : m = "tests"
        · rw [if_pos hts] at h; exact ih b r h
        · rw [if_neg hts] at h
          rcases hum1 : um b m m m with e | ⟨b2, out1⟩
          · simp only [hum1] at h; exact Except.noConfusion h
          · simp only [hum1] at h
            rcases hrest : librsLines um b2 rest with e | ⟨b3, out2⟩
            · simp only [hrest] at h; exact Except.noConfusion h
            · simp only [hrest] at h
              cases h
              exact balanced_append (hum _ _ _ _ _ hum1) (ih b2 (b3, out2) hrest)

theorem librs_balanced (fs : FS) (fuel : Nat) (b : Bundler)
    (r : Bundler × List OutLine) (h : librs fs fuel b = Except.ok r) :
    balanced r.2 := by
  unfold librs at h
  rcases hfs : fs b.librs_filename with _ | ls
  · simp only [hfs] at h; exact Except.noConfusion h
  · simp only [hfs] at h
    exact librsLines_balanced (usemod_balanced fs fuel) ls b r h

theorem binrsLines_balanced (fs : FS) (fuel : Nat) (crate : String) :
    ∀ (ls : List String) (b : Bundler) (r : Bundler × List OutLine),
      binrsLines fs fuel crate b ls = Except.ok r → balanced r.2 := by
  intro ls
  induction ls with
  | nil =>
    intro b r h
    simp only [binrsLines] at h
    cases h
    exact balanced_nil
  | cons raw rest ih =>
    intro b r h
    simp only [binrsLines] at h
    by_cases hcw : (isComment (trimR raw) || isWarn (trimR raw)) = true
    · rw [if_pos hcw] at h; exact ih b r h
    · rw [if_neg hcw] at h
      by_cases hec : trimR raw = crateDecl crate
      · rw [if_pos hec] at h
        rcases hlib : librs fs fuel b with e | ⟨b2, out1⟩
        · simp only [hlib] at h; exact Except.noConfusion h
        · simp only [hlib] at h
          rcases hrest : binrsLines fs fuel crate b2 rest with e | ⟨b3, out2⟩
          · simp only [hrest] at h; exact Except.noConfusion h
          · simp only [hrest] at h
            cases h
            exact balanced_append (librs_balanced fs fuel b _ hlib) (ih b2 (b3, out2) hrest)
      · rw [if_neg hec] at h
        rcases huc : useCrateCapture crate (trimR raw) with _ | moduse
        · simp only [huc] at h
          rcases hrest : binrsLines fs fuel crate b rest with e | ⟨b2, out2⟩
          · simp only [hrest] at h; exact Except.noConfusion h
          · simp only [hrest] at h
            cases h
            exact balanced_cons_neutral (by exact fun hh => by cases hh)
              (by exact fun hh => by cases hh) (ih b (b2, out2) hrest)
        · simp only [huc] at h
          by_cases hmem : moduse ∈ b.skip_use
          · rw [if_pos hmem] at h; exact ih b r h
          · rw [if_neg hmem] at h
            rcases hrest : binrsLines fs fuel crate b rest with e | ⟨b2, out2⟩
            · simp only [hrest] at h; exact Except.noConfusion h
            · simp only [hrest] at h
              cases h
              exact balanced_cons_neutral (by exact fun hh => by cases hh)
                (by exact fun hh => by cases hh) (ih b (b2, out2) hrest)

theorem run_balanced (fs : FS) (fuel : Nat) (b : Bundler)
    (out : List OutLine) (h : run fs fuel b = Except.ok out) : balanced out := by
  unfold run at h
  rcases hb : binrs fs fuel b with e | ⟨b2, out2⟩
  · simp only [hb, Except.map] at h; exact Except.noConfusion h
  · simp only [hb, Except.map] at h
    cases h
    unfold binrs at hb
    rcases hfs : fs b.binrs_filename with _ | ls
    · simp only [hfs] at hb; exact Except.noConfusion hb
    · simp only [hfs] at hb
      exact binrsLines_balanced fs fuel b._crate_name ls b _ hb

/-! ## The minify flag is never changed by a run -/

theorem usemodBody_flag {um : Expander}
    (hum : ∀ b n2 p2 i2 r, um b n2 p2 i2 = Except.ok r → r.1.minify_re = b.minify_re)
    (n p i : String) :
    ∀ (ls : List String) (b : Bundler) (r : Bundler × List OutLine),
      usemodBody um n p i b ls = Except.ok r → r.1.minify_re = b.minify_re := by
  intro ls
  induction ls with
  | nil =>
    intro b r h
    simp only [usemodBody] at h
    cases h
    rfl
  | cons raw rest ih =>
    intro b r h
    simp only [usemodBody] at h
    by_cases hcw : (isComment (trimR raw) || isWarn (trimR raw)) = true
    · rw [if_pos hcw] at h; exact ih b r h
    · rw [if_neg hcw] at h
      rcases hmc : modCapture (trimR raw) with _ | m
      · simp only [hmc] at h
        rcases hrest : usemodBody um n p i b rest with e | ⟨b2, out2⟩
        · simp only [hrest] at h; exact Except.noConfusion h
        · simp only [hrest] at h
          cases h
          exact ih b (b2, out2) hrest
      · simp only [hmc] at h
        by_cases hts : m = "tests"
        · rw [if_pos hts] at h; exact ih b r h
        · rw [if_neg hts] at h
          rcases hum1 : um b m (p ++ "/" ++ m) (i ++ "::" ++ m) with e | ⟨b2, out1⟩
          · simp only [hum1] at h; exact Except.noConfusion h
          · simp only [hum1] at h
            rcases hrest : usemodBody um n p i b2 rest with e | ⟨b3, out2⟩
            · simp only [hrest] at h; exact Except.noConfusion h
            · simp only [hrest] at h
              cases h
              rw [ih b2 (b3, out2) hrest, hum _ _ _ _ _ hum1]

theorem usemod_flag (fs : FS) :
    ∀ (fuel : Nat) (b : Bundler) (n p i : String) (r : Bundler × List OutLine),
      usemod fs fuel b n p i = Except.ok r → r.1.minify_re = b.minify_re := by
  intro fuel
  induction fuel with
  | zero => intro b n p i r h; exact absurd h (by simp [usemod])
  | succ fuel ih =>
    intro b n p i r h
    simp only [usemod] at h
    rcases hres : resolveModule fs p with _ | body
    · simp only [hres] at h; exact Except.noConfusion h
    · simp only [hres] at h
      rcases hbody : usemodBody (usemod fs fuel) n p i
          { b with skip_use := hsInsert i b.skip_use } body with e | ⟨b2, out⟩
      · simp only [hbody] at h; exact Except.noConfusion h
      · simp only [hbody] at h
        cases h
        exact usemodBody_flag (fun b' n' p' i' r' h' => ih b' n' p' i' r' h')
          n p i body { b with skip_use := hsInsert i b.skip_use } (b2, out) hbody

theorem librsLines_flag {um : Expander}
    (hum : ∀ b n2 p2 i2 r, um b n2 p2 i2 = Except.ok r → r.1.minify_re = b.minify_re) :
    ∀ (ls : List String) (b : Bundler) (r : Bundler × List OutLine),
      librsLines um b ls = Except.ok r → r.1.minify_re = b.minify_re := by
  intro ls
  induction ls with
  | nil =>
    intro b r h
    simp only [librsLines] at h
    cases h
    rfl
  | cons raw rest ih =>
    intro b r h
    simp only [librsLines] at h
    by_cases hcw : (isComment (trimR raw) || isWarn (trimR raw)) = true
    · rw [if_pos hcw] at h; exact ih b r h
    · rw [if_neg hcw] at h
      rcases hmc : modCapture (trimR raw) with _ | m
      · simp only [hmc] at h
        rcases hrest : librsLines um b rest with e | ⟨b2, out2⟩
        · simp only [hrest] at h; exact Except.noConfusion h
        · simp only [hrest] at h
          cases h
          exact ih b (b2, out2) hrest
      · simp only [hmc] at h
        by_cases hts : m = "tests"
        · rw [if_pos hts] at h; exact ih b r h
        · rw [if_neg hts] at h
          rcases hum1 : um b m m m with e | ⟨b2, out1⟩
          · simp only [hum1] at h; exact Except.noConfusion h
          · simp only [hum1] at h
            rcases hrest : librsLines um b2 rest with e | ⟨b3, out2⟩
            · simp only [hrest] at h; exact Except.noConfusion h
            · simp only [hrest] at h
              cases h
              rw [ih b2 (b3, out2) hrest, hum _ _ _ _ _ hum1]

theorem librs_flag (fs : FS) (fuel : Nat) (b : Bundler)
    (r : Bundler × List OutLine) (h : librs fs fuel b = Except.ok r) :
    r.1.minify_re = b.minify_re := by
  unfold librs at h
  rcases hfs : fs b.librs_filename with _ | ls
  · simp only [hfs] at h; exact Except.noConfusion h
  · simp only [hfs] at h
    exact librsLines_flag (usemod_flag fs fuel) ls b r h

/-! ## Minification is purely cosmetic -/

theorem MinPair.eq_true {b1 b2 : Bundler} (h : MinPair b1 b2) :
    b1 = minify_set b2 true := h.1

theorem MinPair.flag_false {b1 b2 : Bundler} (h : MinPair b1 b2) :
    b2.minify_re = false := h.2

theorem MinPair.skip_eq {b1 b2 : Bundler} (h : MinPair b1 b2) :
    b1.skip_use = b2.skip_use := by rw [h.eq_true]; rfl

theorem MinPair_insert {b1 b2 : Bundler} (h : MinPair b1 b2) (i : String) :
    MinPair { b1 with skip_use := hsInsert i b1.skip_use }
      { b2 with skip_use := hsInsert i b2.skip_use } := by
  obtain ⟨h1, h2⟩ := h
  subst h1
  exact ⟨rfl, h2⟩

theorem MinPair_mk {c : Bundler} (h : c.minify_re = false) :
    MinPair (minify_set c true) c := ⟨rfl, h⟩

theorem usemodBody_min {um : Expander}
    (humR : ∀ b1 b2 n2 p2 i2, MinPair b1 b2 → um b1 n2 p2 i2 =
      Except.map (fun r => (minify_set r.1 true, r.2.map minifyItem)) (um b2 n2 p2 i2))
    (humF : ∀ b n2 p2 i2 r, um b n2 p2 i2 = Except.ok r → r.1.minify_re = b.minify_re)
    (n p i : String) :
    ∀ (ls : List String) (b1 b2 : Bundler), MinPair b1 b2 →
      usemodBody um n p i b1 ls =
        Except.map (fun r => (minify_set r.1 true, r.2.map minifyItem))
          (usemodBody um n p i b2 ls) := by
  intro ls
  induction ls with
  | nil =>
    intro b1 b2 hmp
    simp only [usemodBody, Except.map, List.map_nil]
    rw [hmp.eq_true]
  | cons raw rest ih =>
    intro b1 b2 hmp
    simp only [usemodBody]
    by_cases hcw : (isComment (trimR raw) || isWarn (trimR raw)) = true
    · rw [if_pos hcw, if_pos hcw]
      exact ih b1 b2 hmp
    · rw [if_neg hcw, if_neg hcw]
      rcases hmc : modCapture (trimR raw) with _ | m
      · simp only [hmc]
        rw [ih b1 b2 hmp]
        rcases hr : usemodBody um n p i b2 rest with e | ⟨c2, out2⟩
        · simp [Except.map]
        · simp [Except.map, minifyItem, write_line, hmp.eq_true, hmp.flag_false,
            minify_set]
      · simp only [hmc]
        by_cases hts : m = "tests"
        · rw [if_pos hts, if_pos hts]
          exact ih b1 b2 hmp
        · rw [if_neg hts, if_neg hts]
          rw [humR b1 b2 m (p ++ "/" ++ m) (i ++ "::" ++ m) hmp]
          rcases hu : um b2 m (p ++ "/" ++ m) (i ++ "::" ++ m) with e | ⟨c2, out1⟩
          · simp [Except.map]
          · simp only [Except.map]
            have hf : c2.minify_re = false := by
              rw [humF b2 m (p ++ "/" ++ m) (i ++ "::" ++ m) (c2, out1) hu,
                hmp.flag_false]
            rw [ih (minify_set c2 true) c2 (MinPair_mk hf)]
            rcases hr : usemodBody um n p i c2 rest with e | ⟨c3, out2⟩
            · simp [Except.map]
            · simp [Except.map, List.map_append]

theorem usemod_min (fs : FS) :
    ∀ (fuel : Nat) (b1 b2 : Bundler) (n p i : String), MinPair b1 b2 →
      usemod fs fuel b1 n p i =
        Except.map (fun r => (minify_set r.1 true, r.2.map minifyItem))
          (usemod fs fuel b2 n p i) := by
  intro fuel
  induction fuel with
  | zero => intro b1 b2 n p i hmp; simp [usemod, Except.map]
  | succ fuel ih =>
    intro b1 b2 n p i hmp
    simp only [usemod]
    rcases hres : resolveModule fs p with _ | body
    · simp [Except.map]
    · have heq := usemodBody_min (fun x1 x2 nn pp ii hx => ih x1 x2 nn pp ii hx)
        (fun x nn pp ii r hx => usemod_flag fs fuel x nn pp ii r hx) n p i body
        { b1 with skip_use := hsInsert i b1.skip_use }
        { b2 with skip_use := hsInsert i b2.skip_use } (MinPair_insert hmp i)
      simp only [heq]
      rcases hb : usemodBody (usemod fs fuel) n p i
          { b2 with skip_use := hsInsert i b2.skip_use } body with e | ⟨c2, out⟩
      · simp [Except.map]
      · simp [Except.map, minifyItem, List.map_append]

theorem librsLines_min {um : Expander}
    (humR : ∀ b1 b2 n2 p2 i2, MinPair b1 b2 → um b1 n2 p2 i2 =
      Except.map (fun r => (minify_set r.1 true, r.2.map minifyItem)) (um b2 n2 p2 i2))
    (humF : ∀ b n2 p2 i2 r, um b n2 p2 i2 = Except.ok r → r.1.minify_re = b.minify_re) :
    ∀ (ls : List String) (b1 b2 : Bundler), MinPair b1 b2 →
      librsLines um b1 ls =
        Except.map (fun r => (minify_set r.1 true, r.2.map minifyItem))
          (librsLines um b2 ls) := by
  intro ls
  induction ls with
  | nil =>
    intro b1 b2 hmp
    simp only [librsLines, Except.map, List.map_nil]
    rw [hmp.eq_true]
  | cons raw rest ih =>
    intro b1 b2 hmp
    simp only [librsLines]
    by_cases hcw : (isComment (trimR raw) || isWarn (trimR raw)) = true
    · rw [if_pos hcw, if_pos hcw]
      exact ih b1 b2 hmp
    · rw [if_neg hcw, if_neg hcw]
      rcases hmc : modCapture (trimR raw) with _ | m
      · simp only [hmc]
        rw [ih b1 b2 hmp]
        rcases hr : librsLines um b2 rest with e | ⟨c2, out2⟩
        · simp [Except.map]
        · simp [Except.map, minifyItem, write_line, hmp.eq_true, hmp.flag_false,
            minify_set]
      · simp only [hmc]
        by_cases hts : m = "tests"
        · rw [if_pos hts, if_pos hts]
          exact ih b1 b2 hmp
        · rw [if_neg hts, if_neg hts]
          rw [humR b1 b2 m m m hmp]
          rcases hu : um b2 m m m with e | ⟨c2, out1⟩
          · simp [Except.map]
          · simp only [Except.map]
            have hf : c2.minify_re = false := by
              rw [humF b2 m m m (c2, out1) hu, hmp.flag_false]
            rw [ih (minify_set c2 true) c2 (MinPair_mk hf)]
            rcases hr : librsLines um c2 rest with e | ⟨c3, out2⟩
            · simp [Except.map]
            · simp [Except.map, List.map_append]

theorem librs_min (fs : FS) (fuel : Nat) (b1 b2 : Bundler) (hmp : MinPair b1 b2) :
    librs fs fuel b1 =
      Except.map (fun r => (minify_set r.1 true, r.2.map minifyItem))
        (librs fs fuel b2) := by
  unfold librs
  have hfn : b1.librs_filename = b2.librs_filename := by rw [hmp.eq_true]; rfl
  rw [hfn]
  rcases hfs : fs b2.librs_filename with _ | ls
  · simp [Except.map]
  · exact librsLines_min (fun x1 x2 nn pp ii hx => usemod_min fs fuel x1 x2 nn pp ii hx)
      (fun x nn pp ii r hx => usemod_flag fs fuel x nn pp ii r hx) ls b1 b2 hmp

theorem binrsLines_min (fs : FS) (fuel : Nat) (crate : String) :
    ∀ (ls : List String) (b1 b2 : Bundler), MinPair b1 b2 →
      binrsLines fs fuel crate b1 ls =
        Except.map (fun r => (minify_set r.1 true, r.2.map minifyItem))
          (binrsLines fs fuel crate b2 ls) := by
  intro ls
  induction ls with
  | nil =>
    intro b1 b2 hmp
    simp only [binrsLines, Except.map, List.map_nil]
    rw [hmp.eq_true]
  | cons raw rest ih =>
    intro b1 b2 hmp
    simp only [binrsLines]
    by_cases hcw : (isComment (trimR raw) || isWarn (trimR raw)) = true
    · rw [if_pos hcw, if_pos hcw]
      exact ih b1 b2 hmp
    · rw [if_neg hcw, if_neg hcw]
      by_cases hec : trimR raw = crateDecl crate
      · rw [if_pos hec, if_pos hec]
        rw [librs_min fs fuel b1 b2 hmp]
        rcases hlib : librs fs fuel b2 with e | ⟨c2, out1⟩
        · simp [Except.map]
        · simp only [Except.map]
          have hf : c2.minify_re = false := by
            rw [librs_flag fs fuel b2 (c2, out1) hlib, hmp.flag_false]
          rw [ih (minify_set c2 true) c2 (MinPair_mk hf)]
          rcases hr : binrsLines fs fuel crate c2 rest with e | ⟨c3, out2⟩
          · simp [Except.map]
          · simp [Except.map, List.map_append]
      · rw [if_neg hec, if_neg hec]
        rcases huc : useCrateCapture crate (trimR raw) with _ | moduse
        · simp only [huc]
          rw [ih b1 b2 hmp]
          rcases hr : binrsLines fs fuel crate b2 rest with e | ⟨c2, out2⟩
          · simp [Except.map]
          · simp [Except.map, minifyItem, write_line, hmp.eq_true, hmp.flag_false,
              minify_set]
        · simp only [huc]
          rw [hmp.skip_eq]
          by_cases hmem : moduse ∈ b2.skip_use
          · rw [if_pos hmem, if_pos hmem]
            exact ih b1 b2 hmp
          · rw [if_neg hmem, if_neg hmem]
            rw [ih b1 b2 hmp]
            rcases hr : binrsLines fs fuel crate b2 rest with e | ⟨c2, out2⟩
            · simp [Except.map]
            · simp [Except.map, minifyItem]

theorem binrs_min (fs : FS) (fuel : Nat) (b1 b2 : Bundler) (hmp : MinPair b1 b2) :
    binrs fs fuel b1 =
      Except.map (fun r => (minify_set r.1 true, r.2.map minifyItem))
        (binrs fs fuel b2) := by
  unfold binrs
  have hfn : b1.binrs_filename = b2.binrs_filename := by rw [hmp.eq_true]; rfl
  have hcn : b1._crate_name = b2._crate_name := by rw [hmp.eq_true]; rfl
  rw [hfn, hcn]
  rcases hfs : fs b2.binrs_filename with _ | ls
  · simp [Except.map]
  · exact binrsLines_min fs fuel b2._crate_name ls b1 b2 hmp

/-! ## Further step equations used by the claims -/

/-- When resolution succeeds at fuel `fuel + 1`, `usemod` wraps the body
output in its delimiters; the body is processed in a state whose
suppression set already contains `i`. -/
theorem usemod_found {fs : FS} {fuel : Nat} {b : Bundler} {n p i : String}
    {body : List String} (h : resolveModule fs p = some body) :
    usemod fs (fuel + 1) b n p i =
      Except.map (fun r => (r.1,
        ⟨Origin.modFile n p i, OutKind.openDelim, "pub mod " ++ n ++ " \x7b"⟩ ::
          (r.2 ++ [⟨Origin.modFile n p i, OutKind.closeDelim, "\x7d"⟩])))
        (usemodBody (usemod fs fuel) n p i
          { b with skip_use := hsInsert i b.skip_use } body) := by
  simp only [usemod, h]
  rcases usemodBody (usemod fs fuel) n p i
      { b with skip_use := hsInsert i b.skip_use } body with e | ⟨b2, out⟩ <;>
    simp [Except.map]

theorem dropWs_append_ws {l1 l2 : List Char} (h : ∀ c ∈ l1, isWs c = true) :
    dropWs (l1 ++ l2) = dropWs l2 := by
  induction l1 with
  | nil => rfl
  | cons c cs ih =>
    simp only [List.cons_append, dropWs, if_pos (h c (by simp))]
    exact ih fun c' hc' => h c' (by simp [hc'])

theorem isWs_ne_eu {c : Char} (h : isWs c = true) : c ≠ 'e' ∧ c ≠ 'u' := by
  rcases isWs_elim h with h1 | h1 | h1 | h1 <;> subst h1 <;>
    exact ⟨by decide, by decide⟩

theorem data_ne_nil {w : String} (h : w ≠ "") : w.data ≠ [] := by
  intro hd
  exact h (String.ext (by simp [hd]))

/-! ## The claims -/

/-- Claim C1 (confirmed): for every entry-file line matching
`use <crate_name>::<path>;`, the orchestrator drops the line entirely
when `path` is already in the suppression set, and otherwise writes the
rewritten local import `use <path>;` (crate-name qualifier stripped). -/
theorem claimC1_use_rewrite_or_drop (fs : FS) (fuel : Nat) (crate : String)
    (b : Bundler) (raw : String) (rest : List String) (p : String)
    (hc : useCrateCapture crate (trimR raw) = some p) :
    binrsLines fs fuel crate b (raw :: rest) =
      if p ∈ b.skip_use then binrsLines fs fuel crate b rest
      else
        Except.map (fun r =>
            (r.1, ⟨Origin.entry, OutKind.useLine, "use " ++ p ++ ";"⟩ :: r.2))
          (binrsLines fs fuel crate b rest) := by
  by_cases hmem : p ∈ b.skip_use
  · rw [if_pos hmem]; exact binrsLines_use_mem hc hmem
  · rw [if_neg hmem]; exact binrsLines_use_notMem hc hmem

/-- Witness for C1: with `a` suppressed, `use demo::a;` is dropped; with
an empty suppression set, `use demo::zzz;` is rewritten to `use zzz;`. -/
theorem claimC1_use_rewrite_or_drop_witness :
    (binrsLines demoFS 1 "demo"
        ⟨"main.rs", "out.rs", "src/lib.rs", "demo", ["a"], false⟩ ["use demo::a;"] =
      binrsLines demoFS 1 "demo"
        ⟨"main.rs", "out.rs", "src/lib.rs", "demo", ["a"], false⟩ []) ∧
    binrsLines demoFS 1 "demo" demoBundler ["use demo::zzz;"] =
      Except.ok (demoBundler, [⟨Origin.entry, OutKind.useLine, "use zzz;"⟩]) := by
  constructor
  · have h := claimC1_use_rewrite_or_drop demoFS 1 "demo"
      ⟨"main.rs", "out.rs", "src/lib.rs", "demo", ["a"], false⟩ "use demo::a;" [] "a"
      (by decide)
    simpa using h
  · have h := claimC1_use_rewrite_or_drop demoFS 1 "demo" demoBundler
      "use demo::zzz;" [] "zzz" (by decide)
    simpa [demoBundler, crate_name, Bundler.new, binrsLines, Except.map] using h

/-- Claim C2 counterexample: in `demoFS`, module `a` is inlined (its
dotted path `a` is inserted into the suppression set, which still holds
`a` at the end of the run), and the sibling module `b` is processed
afterwards; yet `b`'s import line `use demo::a;` — whose captured path
equals the inserted path `a` — is NOT dropped: it appears verbatim in the
output, so an import line inside a sibling module is not suppressed. -/
theorem claimC2_counterexample :
    binrs demoFS 10 demoBundler =
      Except.ok (⟨"main.rs", "out.rs", "src/lib.rs", "demo", ["b", "a"], false⟩,
        demoOut) ∧
    (⟨Origin.modFile "b" "b" "b", OutKind.text, "use demo::a;"⟩ : OutLine) ∈ demoOut ∧
    useCrateCapture "demo" "use demo::a;" = some "a" ∧
    "a" ∈ (["b", "a"] : List String) :=
  ⟨rfl, by decide, by decide, by decide⟩

/-- Claim C2 as amended (proved): every expansion inserts the module's
dotted import path into the suppression set before processing the module
body, and no operation of the run removes entries; an entry-file import
line processed with the inserted path in the set is dropped.  However,
suppression is consulted only in the entry file: an import line inside a
module file (hence inside any sibling module) is emitted as passthrough
text regardless of the suppression set. -/
theorem claimC2_suppression_insertion :
    (∀ fs fuel b n p i r, usemod fs fuel b n p i = Except.ok r →
      i ∈ r.1.skip_use ∧ b.skip_use ⊆ r.1.skip_use) ∧
    (∀ fs fuel b r, binrs fs fuel b = Except.ok r → b.skip_use ⊆ r.1.skip_use) ∧
    (∀ fs fuel b n p i body, resolveModule fs p = some body →
      usemod fs (fuel + 1) b n p i =
        Except.map (fun r => (r.1,
          ⟨Origin.modFile n p i, OutKind.openDelim, "pub mod " ++ n ++ " \x7b"⟩ ::
            (r.2 ++ [⟨Origin.modFile n p i, OutKind.closeDelim, "\x7d"⟩])))
          (usemodBody (usemod fs fuel) n p i
            { b with skip_use := hsInsert i b.skip_use } body)) ∧
    (∀ fs fuel crate b raw rest pth,
      useCrateCapture crate (trimR raw) = some pth → pth ∈ b.skip_use →
      binrsLines fs fuel crate b (raw :: rest) = binrsLines fs fuel crate b rest) ∧
    (∀ um n p i b raw rest pth c, useCrateCapture c (trimR raw) = some pth →
      usemodBody um n p i b (raw :: rest) =
        Except.map (fun r => (r.1,
          ⟨Origin.modFile n p i, OutKind.text, write_line b (trimR raw)⟩ :: r.2))
          (usemodBody um n p i b rest)) := by
  refine ⟨?_, ?_, ?_, ?_, ?_⟩
  · intro fs fuel b n p i r h
    exact ⟨usemod_skip_insert fs fuel b n p i r h, usemod_skip_mono fs fuel b n p i r h⟩
  · intro fs fuel b r h
    exact binrs_skip_mono fs fuel b r h
  · intro fs fuel b n p i body h
    exact usemod_found h
  · intro fs fuel crate b raw rest pth hc hmem
    exact binrsLines_use_mem hc hmem
  · intro um n p i b raw rest pth c hc
    exact usemodBody_text (use_not_comment hc) (use_not_warn hc) (use_not_mod hc)

/-- Witness for the amended C2, at the inputs of the counterexample. -/
theorem claimC2_suppression_insertion_witness :
    ("a" ∈ (Bundler.mk "main.rs" "out.rs" "src/lib.rs" "demo" ["a"] false).skip_use ∧
      demoBundler.skip_use ⊆
        (Bundler.mk "main.rs" "out.rs" "src/lib.rs" "demo" ["a"] false).skip_use) ∧
    demoBundler.skip_use ⊆
      (Bundler.mk "main.rs" "out.rs" "src/lib.rs" "demo" ["b", "a"] false).skip_use ∧
    (binrsLines demoFS 1 "demo"
        ⟨"main.rs", "out.rs", "src/lib.rs", "demo", ["a"], false⟩ ["use demo::a;"] =
      binrsLines demoFS 1 "demo"
        ⟨"main.rs", "out.rs", "src/lib.rs", "demo", ["a"], false⟩ []) ∧
    usemodBody (usemod demoFS 1) "b" "b" "b" demoBundler ["use demo::a;"] =
      Except.map (fun r => (r.1,
        ⟨Origin.modFile "b" "b" "b", OutKind.text,
          write_line demoBundler (trimR "use demo::a;")⟩ :: r.2))
        (usemodBody (usemod demoFS 1) "b" "b" "b" demoBundler []) := by
  refine ⟨?_, ?_, ?_, ?_⟩
  · exact claimC2_suppression_insertion.1 demoFS 10 demoBundler "a" "a" "a"
      (⟨"main.rs", "out.rs", "src/lib.rs", "demo", ["a"], false⟩,
        [⟨Origin.modFile "a" "a" "a", OutKind.openDelim, "pub mod a \x7b"⟩,
         ⟨Origin.modFile "a" "a" "a", OutKind.text, "pub fn fa() \x7b\x7d"⟩,
         ⟨Origin.modFile "a" "a" "a", OutKind.closeDelim, "\x7d"⟩]) rfl
  · exact claimC2_suppression_insertion.2.1 demoFS 10 demoBundler
      (⟨"main.rs", "out.rs", "src/lib.rs", "demo", ["b", "a"], false⟩, demoOut) rfl
  · exact claimC2_suppression_insertion.2.2.2.1 demoFS 1 "demo"
      ⟨"main.rs", "out.rs", "src/lib.rs", "demo", ["a"], false⟩ "use demo::a;" [] "a"
      (by decide) (by decide)
  · exact claimC2_suppression_insertion.2.2.2.2 (usemod demoFS 1) "b" "b" "b"
      demoBundler "use demo::a;" [] "a" "demo" (by decide)

/-- Claim C3 (confirmed): the resolver tries `src/<p>.rs` then
`src/<p>/mod.rs` in that fixed order and uses the first that opens; if
neither exists, `usemod` fails with a module-not-found error, the error
propagates unchanged through the enclosing line loops (no module is ever
silently skipped), and an erroneous `binrs` makes the whole run fail. -/
theorem claimC3_resolution_and_abort :
    (∀ (fs : FS) (p : String) (bd : List String),
      fs ("src/" ++ p ++ ".rs") = some bd → resolveModule fs p = some bd) ∧
    (∀ (fs : FS) (p : String),
      fs ("src/" ++ p ++ ".rs") = none →
      resolveModule fs p = fs ("src/" ++ p ++ "/mod.rs")) ∧
    (∀ (fs : FS) (fuel : Nat) (b : Bundler) (n p i : String),
      resolveModule fs p = none →
      usemod fs (fuel + 1) b n p i = Except.error (BErr.moduleNotFound p)) ∧
    (∀ (um : Expander) (n p i : String) (b : Bundler) (raw : String)
        (rest : List String) (m : String) (e : BErr),
      modCapture (trimR raw) = some m → m ≠ "tests" →
      um b m (p ++ "/" ++ m) (i ++ "::" ++ m) = Except.error e →
      usemodBody um n p i b (raw :: rest) = Except.error e) ∧
    (∀ (um : Expander) (b : Bundler) (raw : String) (rest : List String)
        (m : String) (e : BErr),
      modCapture (trimR raw) = some m → m ≠ "tests" →
      um b m m m = Except.error e →
      librsLines um b (raw :: rest) = Except.error e) ∧
    (∀ (fs : FS) (fuel : Nat) (b : Bundler) (e : BErr),
      binrs fs fuel b = Except.error e → run fs fuel b = Except.error e) := by
  refine ⟨?_, ?_, ?_, ?_, ?_, ?_⟩
  · intro fs p bd h
    unfold resolveModule
    rw [h]
  · intro fs p h
    unfold resolveModule
    rw [h]
  · intro fs fuel b n p i h
    simp only [usemod, h]
  · intro um n p i b raw rest m e hm hts hum
    rw [usemodBody_mod hm hts, hum]
    rfl
  · intro um b raw rest m e hm hts hum
    rw [librsLines_mod hm hts, hum]
    rfl
  · intro fs fuel b e h
    unfold run
    rw [h]
    rfl

/-- Witness for C3 at concrete filesystems: the flat file wins for
module `a` of `demoFS`; in `lostFS` the module `m` has no backing file,
`usemod` fails, the failure propagates through a library-root line, and
the whole run errors. -/
theorem claimC3_resolution_and_abort_witness :
    resolveModule demoFS "a" = some ["pub fn fa() \x7b\x7d"] ∧
    resolveModule lostFS "m" = lostFS "src/m/mod.rs" ∧
    usemod lostFS 1 demoBundler "m" "m" "m" =
      Except.error (BErr.moduleNotFound "m") ∧
    librsLines (usemod lostFS 9) demoBundler ["pub mod m;"] =
      Except.error (BErr.moduleNotFound "m") ∧
    run lostFS 10 demoBundler = Except.error (BErr.moduleNotFound "m") := by
  refine ⟨?_, ?_, ?_, ?_, ?_⟩
  · exact claimC3_resolution_and_abort.1 demoFS "a" ["pub fn fa() \x7b\x7d"] (by decide)
  · exact claimC3_resolution_and_abort.2.1 lostFS "m" (by decide)
  · exact claimC3_resolution_and_abort.2.2.1 lostFS 0 demoBundler "m" "m" "m" (by decide)
  · exact claimC3_resolution_and_abort.2.2.2.2.1 (usemod lostFS 9) demoBundler
      "pub mod m;" [] "m" (BErr.moduleNotFound "m") (by decide) (by decide) rfl
  · exact claimC3_resolution_and_abort.2.2.2.2.2 lostFS 10 demoBundler
      (BErr.moduleNotFound "m") rfl

/-- Claim C4 (confirmed): a module declaration whose captured name is
literally `tests` is never expanded — the declaration line is consumed
with no output and no recursion, at any depth (module files and the
library root alike) — and consequently no line of a successful run's
output originates from a module named `tests` (in particular there is no
`tests` block and no content from a `tests` file). -/
theorem claimC4_tests_never_expanded :
    (∀ (um : Expander) (n p i : String) (b : Bundler) (raw : String)
        (rest : List String),
      modCapture (trimR raw) = some "tests" →
      usemodBody um n p i b (raw :: rest) = usemodBody um n p i b rest) ∧
    (∀ (um : Expander) (b : Bundler) (raw : String) (rest : List String),
      modCapture (trimR raw) = some "tests" →
      librsLines um b (raw :: rest) = librsLines um b rest) ∧
    (∀ (fs : FS) (fuel : Nat) (b : Bundler) (out : List OutLine),
      run fs fuel b = Except.ok out →
      ∀ x ∈ out, ∀ p i, x.origin ≠ Origin.modFile "tests" p i) := by
  refine ⟨?_, ?_, ?_⟩
  · intro um n p i b raw rest hm
    exact usemodBody_tests hm
  · intro um b raw rest hm
    exact librsLines_tests hm
  · intro fs fuel b out h
    exact run_noTests fs fuel b out h

/-- Witness for C4: `demoFS` declares `pub mod tests;` with no backing
file, yet the run succeeds (the declaration is dropped without resolving
it) and no output line originates from `tests`. -/
theorem claimC4_tests_never_expanded_witness :
    (usemodBody (usemod demoFS 1) "a" "a" "a" demoBundler ["pub mod tests;"] =
      usemodBody (usemod demoFS 1) "a" "a" "a" demoBundler []) ∧
    (librsLines (usemod demoFS 1) demoBundler ["pub mod tests;"] =
      librsLines (usemod demoFS 1) demoBundler []) ∧
    (∀ x ∈ demoOut, ∀ p i, x.origin ≠ Origin.modFile "tests" p i) := by
  refine ⟨?_, ?_, ?_⟩
  · exact claimC4_tests_never_expanded.1 (usemod demoFS 1) "a" "a" "a" demoBundler
      "pub mod tests;" [] (by decide)
  · exact claimC4_tests_never_expanded.2.1 (usemod demoFS 1) demoBundler
      "pub mod tests;" [] (by decide)
  · exact claimC4_tests_never_expanded.2.2 demoFS 10 demoBundler demoOut rfl

/-- Claim C5 (confirmed): in every successfully produced output, the
module-block delimiters emitted by expansions are balanced — the total
numbers of opening and closing delimiters agree, and on every prefix of
the output the closing count never exceeds the opening count. -/
theorem claimC5_delimiters_balanced (fs : FS) (fuel : Nat) (b : Bundler)
    (out : List OutLine) (h : run fs fuel b = Except.ok out) : balanced out :=
  run_balanced fs fuel b out h

/-- Witness for C5 at the `demoFS` run. -/
theorem claimC5_delimiters_balanced_witness : balanced demoOut :=
  claimC5_delimiters_balanced demoFS 10 demoBundler demoOut rfl

/-- Claim C6 counterexample: the entry file consists of the single line
`pub mod foo;`, which matches the module-declaration rule with a name
other than `tests`, and `src/foo.rs` exists; yet the orchestrator
performs no inlining at all — the run's output is exactly the
declaration line itself, emitted as passthrough text (no block opening,
no content of `foo`). -/
theorem claimC6_counterexample :
    modCapture (trimR "pub mod foo;") = some "foo" ∧
    ("foo" : String) ≠ "tests" ∧
    entryModFS "src/foo.rs" = some ["pub fn g() \x7b\x7d"] ∧
    run entryModFS 10 demoBundler =
      Except.ok [⟨Origin.entry, OutKind.text, "pub mod foo;"⟩] :=
  ⟨by decide, by decide, by decide, rfl⟩

/-- Claim C6 as amended (proved): the entry-file loop recognises only
comments, lint attributes, the extern-crate line and use-crate lines; a
line matching `pub mod <name>;` is none of those, so it is emitted as a
passthrough line through the shared write path and triggers no recursive
inlining.  Module declarations are expanded only in the library root and
in module files. -/
theorem claimC6_entry_mod_passthrough (fs : FS) (fuel : Nat) (crate : String)
    (b : Bundler) (raw : String) (rest : List String) (m : String)
    (hm : modCapture (trimR raw) = some m) :
    binrsLines fs fuel crate b (raw :: rest) =
      Except.map (fun r =>
          (r.1, ⟨Origin.entry, OutKind.text, write_line b (trimR raw)⟩ :: r.2))
        (binrsLines fs fuel crate b rest) :=
  binrsLines_passthrough (mod_not_comment hm) (mod_not_warn hm)
    (mod_ne_crateDecl hm) (mod_not_use hm)

/-- Witness for the amended C6 at the counterexample's input. -/
theorem claimC6_entry_mod_passthrough_witness :
    binrsLines entryModFS 1 "demo" demoBundler ["pub mod foo;"] =
      Except.map (fun r =>
          (r.1, ⟨Origin.entry, OutKind.text,
            write_line demoBundler (trimR "pub mod foo;")⟩ :: r.2))
        (binrsLines entryModFS 1 "demo" demoBundler []) :=
  claimC6_entry_mod_passthrough entryModFS 1 "demo" demoBundler "pub mod foo;" []
    "foo" (by decide)

/-- Claim C7 (confirmed): enabling the minify flag changes only the
whitespace inside emitted passthrough lines.  A run with minification
enabled produces exactly the image under `minifyItem` of the run with it
disabled: the same lines are emitted, dropped and suppressed, with the
same provenance and kinds (hence identical module-block nesting); only
the `content` of `write_line` text items loses its leading whitespace. -/
theorem claimC7_minify_cosmetic (fs : FS) (fuel : Nat) (b : Bundler) :
    run fs fuel (minify_set b true) =
      Except.map (List.map minifyItem) (run fs fuel (minify_set b false)) := by
  unfold run
  rw [binrs_min fs fuel (minify_set b true) (minify_set b false) ⟨rfl, rfl⟩]
  rcases binrs fs fuel (minify_set b false) with e | ⟨b2, out⟩ <;> simp [Except.map]

/-- Claim C8 (confirmed): an entry-file `extern crate <crate>;` or
`use <crate>::<path>;` line preceded by any (nonempty) leading
whitespace is not recognised by the two anchored crate matchers, so it
is emitted as a passthrough line: no library expansion, no suppression,
no rewriting. -/
theorem claimC8_indented_crate_lines_passthrough (fs : FS) (fuel : Nat)
    (crate : String) (b : Bundler) (raw w core : String) (rest : List String)
    (hw1 : w ≠ "") (hw2 : ∀ c ∈ w.data, isWs c = true)
    (hcore : core = crateDecl crate ∨ ∃ p2, useCrateCapture crate core = some p2)
    (heq : trimR raw = w ++ core) :
    binrsLines fs fuel crate b (raw :: rest) =
      Except.map (fun r =>
          (r.1, ⟨Origin.entry, OutKind.text, write_line b (w ++ core)⟩ :: r.2))
        (binrsLines fs fuel crate b rest) := by
  have hcd : ∃ h0 t, core.data = h0 :: t ∧ (h0 = 'e' ∨ h0 = 'u') := by
    rcases hcore with hc | ⟨p2, hp2⟩
    · exact ⟨'e', _, by rw [hc]; exact crateDecl_data crate, Or.inl rfl⟩
    · obtain ⟨t, ht⟩ := useCrate_data_shape hp2
      exact ⟨'u', _, ht, Or.inr rfl⟩
  obtain ⟨h0, t0, hcdata, hh0⟩ := hcd
  have hwd : w.data ≠ [] := data_ne_nil hw1
  rcases hwdata : w.data with _ | ⟨c0, t1⟩
  · exact absurd hwdata hwd
  have hc0 : isWs c0 = true := hw2 c0 (by rw [hwdata]; simp)
  have hdata : (w ++ core).data = c0 :: (t1 ++ core.data) := by
    rw [String.data_append, hwdata]
    simp
  have h0ne : isWs h0 = false := by
    rcases hh0 with h | h <;> subst h <;> decide
  have hdrop : dropWs (w ++ core).data = core.data := by
    rw [String.data_append, dropWs_append_ws hw2, hcdata]
    simp [dropWs, h0ne]
  have hcom : isComment (w ++ core) = false := by
    unfold isComment
    rw [hdrop, hcdata]
    rcases hh0 with h | h <;> subst h <;> rfl
  have hwarn : isWarn (w ++ core) = false := by
    unfold isWarn
    rw [hdrop, hcdata]
    rcases hh0 with h | h <;> subst h <;> rfl
  have hext : (w ++ core) ≠ crateDecl crate := by
    intro hcontra
    have hd := congrArg String.data hcontra
    rw [hdata, crateDecl_data] at hd
    have hc0e : c0 = 'e' := List.head_eq_of_cons_eq hd
    exact (isWs_ne_eu hc0).1 hc0e
  have huse : useCrateCapture crate (w ++ core) = none := by
    unfold useCrateCapture
    have hpre : ("use " ++ crate ++ "::").data =
        'u' :: 's' :: 'e' :: ' ' :: (crate.data ++ (":" ++ ":").data) := by
      simp [String.data_append]
    rw [hpre, hdata]
    have hne : c0 ≠ 'u' := (isWs_ne_eu hc0).2
    simp only [stripPre]
    rw [if_neg (Ne.symm hne)]
  have hmain := @binrsLines_passthrough fs fuel crate b raw rest
    (by rw [heq]; exact hcom) (by rw [heq]; exact hwarn)
    (by rw [heq]; exact hext) (by rw [heq]; exact huse)
  simp only [heq] at hmain
  exact hmain

/-- Witness for C8: an indented `extern crate demo;` is passed through. -/
theorem claimC8_indented_crate_lines_passthrough_witness :
    binrsLines demoFS 1 "demo" demoBundler [" extern crate demo;"] =
      Except.map (fun r =>
          (r.1, ⟨Origin.entry, OutKind.text,
            write_line demoBundler (" " ++ "extern crate demo;")⟩ :: r.2))
        (binrsLines demoFS 1 "demo" demoBundler []) :=
  claimC8_indented_crate_lines_passthrough demoFS 1 "demo" demoBundler
    " extern crate demo;" " " "extern crate demo;" []
    (by decide) (by decide) (Or.inl rfl) (by decide)

/-- Claim C9 (confirmed): the suppression set never prevents a module
expansion.  For any state — in particular one whose suppression set
already contains the captured name — a non-`tests` module declaration in
the library root or in a module file always invokes the expander, whose
output block is spliced in front of the rest; membership in `skip_use`
is never consulted before expanding. -/
theorem claimC9_suppression_never_blocks_expansion :
    (∀ (um : Expander) (b : Bundler) (raw : String) (rest : List String)
        (m : String),
      modCapture (trimR raw) = some m → m ≠ "tests" →
      librsLines um b (raw :: rest) =
        Except.bind (um b m m m) (fun r1 =>
          Except.map (fun r2 => (r2.1, r1.2 ++ r2.2)) (librsLines um r1.1 rest))) ∧
    (∀ (um : Expander) (n p i : String) (b : Bundler) (raw : String)
        (rest : List String) (m : String),
      modCapture (trimR raw) = some m → m ≠ "tests" →
      usemodBody um n p i b (raw :: rest) =
        Except.bind (um b m (p ++ "/" ++ m) (i ++ "::" ++ m)) (fun r1 =>
          Except.map (fun r2 => (r2.1, r1.2 ++ r2.2)) (usemodBody um n p i r1.1 rest))) :=
  ⟨fun _ _ _ _ _ hm hts => librsLines_mod hm hts,
   fun _ _ _ _ _ _ _ _ hm hts => usemodBody_mod hm hts⟩

/-- Witness for C9: with `a` already suppressed, `pub mod a;` in the
library root still expands, producing its own full block again. -/
theorem claimC9_suppression_never_blocks_expansion_witness :
    (librsLines (usemod demoFS 5)
        ⟨"main.rs", "out.rs", "src/lib.rs", "demo", ["a"], false⟩ ["pub mod a;"] =
      Except.bind (usemod demoFS 5
          ⟨"main.rs", "out.rs", "src/lib.rs", "demo", ["a"], false⟩ "a" "a" "a")
        (fun r1 => Except.map (fun r2 => (r2.1, r1.2 ++ r2.2))
          (librsLines (usemod demoFS 5) r1.1 []))) ∧
    librsLines (usemod demoFS 5)
        ⟨"main.rs", "out.rs", "src/lib.rs", "demo", ["a"], false⟩ ["pub mod a;"] =
      Except.ok (⟨"main.rs", "out.rs", "src/lib.rs", "demo", ["a"], false⟩,
        [⟨Origin.modFile "a" "a" "a", OutKind.openDelim, "pub mod a \x7b"⟩,
         ⟨Origin.modFile "a" "a" "a", OutKind.text, "pub fn fa() \x7b\x7d"⟩,
         ⟨Origin.modFile "a" "a" "a", OutKind.closeDelim, "\x7d"⟩]) :=
  ⟨claimC9_suppression_never_blocks_expansion.1 (usemod demoFS 5)
      ⟨"main.rs", "out.rs", "src/lib.rs", "demo", ["a"], false⟩ "pub mod a;" [] "a"
      (by decide) (by decide),
   rfl⟩

/-- Claim C10 (confirmed): the library root is always read from the
fixed relative path `src/lib.rs` — `Bundler::new` hard-wires it whatever
its two arguments are, and neither public configuration method touches
it — and every module's backing file is resolved at `src/<path>.rs` or
`src/<path>/mod.rs`. -/
theorem claimC10_fixed_paths :
    LIBRS_FILENAME = "src/lib.rs" ∧
    (∀ bin bund : String, (Bundler.new bin bund).librs_filename = "src/lib.rs") ∧
    (∀ (b : Bundler) (e : Bool), (minify_set b e).librs_filename = b.librs_filename) ∧
    (∀ (b : Bundler) (nm : String),
      (crate_name b nm).librs_filename = b.librs_filename) ∧
    (∀ (fs : FS) (fuel : Nat) (bin bund nm : String) (e : Bool),
      librs fs fuel (crate_name (minify_set (Bundler.new bin bund) e) nm) =
        match fs "src/lib.rs" with
        | none => Except.error BErr.librsNotFound
        | some ls =>
          librsLines (usemod fs fuel)
            (crate_name (minify_set (Bundler.new bin bund) e) nm) ls) ∧
    (∀ (fs : FS) (p : String), resolveModule fs p =
        match fs ("src/" ++ p ++ ".rs") with
        | some bd => some bd
        | none => fs ("src/" ++ p ++ "/mod.rs")) :=
  ⟨rfl, fun _ _ => rfl, fun _ _ => rfl, fun _ _ => rfl,
   fun _ _ _ _ _ _ => rfl, fun _ _ => rfl⟩
